import Mathlib

/-!
Shallow embedding of the quote aggregation and caching layer of the
stockspace backend (`backend/services/stock_data.py` and the ranking
endpoint of `backend/routers/stocks.py`), together with theorems checking
the natural-language specification of that layer.

Modelling conventions:
* Python dictionaries holding quote metrics are embedded as the
  `QuoteRecord` structure; a metric that the producing provider did not
  supply is `none` (Python `None` / absent key).
* Python floats are modelled as `ℚ`; timestamps (`datetime.now()` /
  `time.time()`) are modelled as `ℚ` values measured in seconds.  Within a
  single call of an embedded function the clock is held constant; distinct
  calls may happen at distinct times.
* Network and pandas boundaries (`requests`, `yfinance` endpoint objects,
  J-Quants HTTP responses) are oracles collected in an `Env` value; an
  exception raised by a boundary call is an explicit `raised` outcome.
* Python truthiness is embedded explicitly: `qTruthy` for numbers
  (`0` and `None` are falsy), `strTruthy` for strings (`""` and `None`
  are falsy); `pyOr`/`pyOrS` embed the Python `or` chains used by the
  source, and `pyStrip`/`pyUpper`/`pyLower`/`strRemove` embed
  `str.strip`/`str.upper`/`str.lower`/`str.replace(_, "")`.
* Every embedded function returns, besides its value, the list of
  boundary events (`Ev`) it produced, so that claims about which
  endpoints are queried become statements about traces.
-/

/-! ## Python string primitives -/

/-- Characters treated as whitespace by Python `str.strip` that can occur
in the inputs of this system (ASCII whitespace and the ideographic space
U+3000 used by Japanese text). -/
def pyIsSpace (c : Char) : Bool :=
  c = ' ' || c = '\t' || c = '\n' || c = '\r' || c = '\x0b' || c = '\x0c' || c = '　'

/-- Python `str.strip()`. -/
def pyStrip (s : String) : String :=
  ⟨((s.data.dropWhile pyIsSpace).reverse.dropWhile pyIsSpace).reverse⟩

/-- Python `str.upper()` (ASCII letters; other characters unchanged, as in
the symbols and names this system handles). -/
def pyUpper (s : String) : String := ⟨s.data.map Char.toUpper⟩

/-- Python `str.lower()` (ASCII letters; other characters unchanged). -/
def pyLower (s : String) : String := ⟨s.data.map Char.toLower⟩

/-- Whether the first list is an initial segment of the second. -/
def leadsWith : List Char → List Char → Bool
  | [], _ => true
  | _ :: _, [] => false
  | a :: as, b :: bs => a = b && leadsWith as bs

/-- Python `needle in haystack` on strings: some contiguous occurrence. -/
def containsSeq (pat : List Char) : List Char → Bool
  | [] => pat.isEmpty
  | c :: rest => leadsWith pat (c :: rest) || containsSeq pat rest

/-- Python `pat in s` for strings. -/
def containsStr (pat s : String) : Bool := containsSeq pat.data s.data

/-- Fuelled worker for `removeAll`; the fuel is the length of the scanned
list, so the definition is structural and computes by `rfl`/`decide`. -/
def removeAllFuel (pat : List Char) : Nat → List Char → List Char
  | 0, l => l
  | _ + 1, [] => []
  | n + 1, c :: rest =>
    if !pat.isEmpty && leadsWith pat (c :: rest) then
      removeAllFuel pat n ((c :: rest).drop pat.length)
    else
      c :: removeAllFuel pat n rest

/-- Remove every (non-overlapping, left-to-right) occurrence of `pat`:
Python `s.replace(pat, "")`, the only form of `replace` the source uses. -/
def removeAll (pat l : List Char) : List Char := removeAllFuel pat l.length l

/-- Python `s.replace(pat, "")` on strings. -/
def strRemove (s pat : String) : String := ⟨removeAll pat.data s.data⟩

/-- Python `s.isdigit()` for the ASCII digit strings used as ticker codes. -/
def isDigits (s : String) : Bool := !s.data.isEmpty && s.data.all Char.isDigit

/-! ## Python truthiness on optional numbers and strings -/

/-- Python truthiness of an optional float: `None` and `0.0` are falsy. -/
def qTruthy : Option ℚ → Bool
  | none => false
  | some x => x ≠ 0

/-- Python truthiness of an optional string: `None` and `""` are falsy. -/
def strTruthy : Option String → Bool
  | none => false
  | some s => s ≠ ""

/-- Python `a or b` on optional floats. -/
def pyOr (a b : Option ℚ) : Option ℚ := if qTruthy a then a else b

/-- Python `a or d` where `d` is a concrete float (e.g. `... or 0.0`). -/
def pyOrD (a : Option ℚ) (d : ℚ) : ℚ :=
  match a with
  | none => d
  | some x => if x = 0 then d else x

/-- Python `a or b` on optional strings. -/
def pyOrS (a b : Option String) : Option String := if strTruthy a then a else b

/-- Python `a or d` where `d` is a concrete string default. -/
def pyStrD (a : Option String) (d : String) : String :=
  match a with
  | none => d
  | some s => if s = "" then d else s


/-! ## Data model -/

/-- A quote metrics dictionary (`Dict[str, Any]`) as produced by the
provider adapters.  A field is `none` (or `[]` for the series) when the
corresponding key is absent from the Python dict. -/
structure QuoteRecord where
  symbol : String := ""
  name : Option String := none
  nameEn : Option String := none
  price : Option ℚ := none
  previousClose : Option ℚ := none
  change : Option ℚ := none
  changePct : Option ℚ := none
  high : Option ℚ := none
  low : Option ℚ := none
  volume : Option ℚ := none
  per : Option ℚ := none
  pbr : Option ℚ := none
  dividendYield : Option ℚ := none
  dividendPayoutPct : Option ℚ := none
  marketCap : Option ℚ := none
  revenue : Option ℚ := none
  profit : Option ℚ := none
  revenueHistory : List ℚ := []
  profitHistory : List ℚ := []
  dividendHistory : List ℚ := []
  dividendLabels : List String := []
  priceHistory : List ℚ := []
  priceHistoryLabels : List String := []
  sector : Option String := none
  industry : Option String := none
  description : Option String := none
  date : Option String := none
  source : Option String := none
  note : Option String := none
deriving DecidableEq, Repr

/-- Result of `ticker.fast_info` as a key/value bag; `U` fields carry the
snake_case keys, `C` fields the camelCase spellings the source coalesces. -/
structure FastInfo where
  lastPriceU : Option ℚ := none
  lastPriceC : Option ℚ := none
  prevCloseU : Option ℚ := none
  prevCloseC : Option ℚ := none
  dayHighU : Option ℚ := none
  dayHighC : Option ℚ := none
  dayLowU : Option ℚ := none
  dayLowC : Option ℚ := none
deriving DecidableEq, Repr

/-- Result of `ticker.info`. -/
structure YInfo where
  currentPrice : Option ℚ := none
  previousClose : Option ℚ := none
  dayHigh : Option ℚ := none
  dayLow : Option ℚ := none
  longName : Option String := none
  shortName : Option String := none
  nameF : Option String := none
  trailingPE : Option ℚ := none
  priceToBook : Option ℚ := none
  dividendYieldRaw : Option ℚ := none
  payoutRatioRaw : Option ℚ := none
  marketCap : Option ℚ := none
  sector : Option String := none
  industry : Option String := none
  longBusinessSummary : Option String := none
deriving DecidableEq, Repr

/-- Outcome of one boundary call that the Python code wraps in
`try/except`: either an exception was raised (with or without a detected
rate-limit message) or a value came back. -/
inductive FetchOutcome (α : Type) where
  | raised (rateLimited : Bool)
  | got (val : α)
deriving DecidableEq, Repr

/-- One column of the `ticker.financials` DataFrame: the values at the
rows the source reads.  A value is only consulted when the corresponding
row exists in the index (see `FinTable`). -/
structure FinCol where
  totalRevenue : Option ℚ := none
  netSalesJp : Option ℚ := none
  netIncome : Option ℚ := none
  netIncomeJp : Option ℚ := none
deriving DecidableEq, Repr

/-- The `ticker.financials` DataFrame: which index rows exist
("Total Revenue", "売上高", "Net Income", "当期純利益") and the columns,
newest first as pandas returns them. -/
structure FinTable where
  hasTotalRevenue : Bool := false
  hasNetSalesJp : Bool := false
  hasNetIncome : Bool := false
  hasNetIncomeJp : Bool := false
  cols : List FinCol := []
deriving DecidableEq, Repr

/-- Outcome of reading `ticker.financials`. `absent` is pandas `None` or
an empty frame. -/
inductive FinOutcome where
  | raised
  | absent
  | got (t : FinTable)
deriving DecidableEq, Repr

/-- Outcome of reading `ticker.dividends`: the series rows as
(year of the payment date, amount); an empty list is an empty series. -/
inductive DivOutcome where
  | raised
  | got (rows : List (Int × ℚ))
deriving DecidableEq, Repr

/-- Outcome of `ticker.history(period="10d", interval="1d")`: the Close
column rows as (optional close value, "%m/%d" label). -/
inductive HistOutcome where
  | raised
  | got (rows : List (Option ℚ × String))
deriving DecidableEq, Repr

/-- Normalised result of `_fetch_jquants_listed_info` (the dict it builds
always carries a `name` string; market/sector/industry may be null). -/
structure JInfo where
  name : String := ""
  market : Option String := none
  sector : Option String := none
  industry : Option String := none
deriving DecidableEq, Repr

/-- Normalised result of `_fetch_jquants_statements`. -/
structure JStatements where
  revenue : Option ℚ := none
  profit : Option ℚ := none
  eps : Option ℚ := none
  bps : Option ℚ := none
  revenueHistory : List ℚ := []
  profitHistory : List ℚ := []
  dividendHistory : List ℚ := []
  dividendLabels : List String := []
deriving DecidableEq, Repr

/-- One raw daily-quote dict from `_fetch_jquants_daily_quotes_all`, with
the alternative key spellings the source coalesces. -/
structure RawDailyQuote where
  codeC : Option String := none
  codeL : Option String := none
  symC : Option String := none
  symL : Option String := none
  close : Option ℚ := none
  adjustmentClose : Option ℚ := none
  previousClose : Option ℚ := none
  previousClosePrice : Option ℚ := none
  previousCloseValue : Option ℚ := none
  changeRaw : Option ℚ := none
  changePercentage : Option ℚ := none
  changePercent : Option ℚ := none
  changePctRaw : Option ℚ := none
  changeRate : Option ℚ := none
  companyName : Option String := none
deriving DecidableEq, Repr

/-- One raw listed-instrument dict from `_fetch_jquants_listed_all`, with
the alternative key spellings `_normalize_listed_item` coalesces. -/
structure RawListedInfo where
  codeC : Option String := none
  codeL : Option String := none
  symbolL : Option String := none
  symbolC : Option String := none
  companyName : Option String := none
  nameC : Option String := none
  nameL : Option String := none
  companyNameEnglish : Option String := none
  nameEnglish : Option String := none
  nameEnL : Option String := none
  marketName : Option String := none
  marketL : Option String := none
  marketCode : Option String := none
deriving DecidableEq, Repr

/-- A normalised listed-directory entry. -/
structure ListedItem where
  symbol : String
  name : String
  nameEn : String
  market : Option String
deriving DecidableEq, Repr

/-- A ranking entry as built by both ranking modes. -/
structure RankingEntry where
  symbol : String
  name : String
  price : ℚ
  change : ℚ
  changePct : ℚ
deriving DecidableEq, Repr

/-- The market-movers snapshot cached by `get_market_movers_all`. -/
structure MoversSnap where
  topGainers : List RankingEntry
  topLosers : List RankingEntry
deriving DecidableEq, Repr

/-- Boundary events recorded by the embedded functions. -/
inductive Ev where
  | cacheHit (symbol : String)
  | fastInfoQ (yfSymbol : String)
  | infoQ (yfSymbol : String)
  | financialsQ (symbol : String)
  | dividendsQ (symbol : String)
  | historyQ (symbol : String)
  | jqDailyQ (symbol : String)
  | jqListedQ (symbol : String)
  | jqStatementsQ (symbol : String)
  | mockQ (symbol : String)
deriving DecidableEq, Repr

/-- Whether an event is an invocation of a provider boundary (anything but
a cache hit). -/
def Ev.isProviderCall : Ev → Bool
  | .cacheHit _ => false
  | _ => true

/-- The oracle environment: what each network / pandas boundary would
return during the call being modelled. -/
structure Env where
  fastResp : String → FetchOutcome FastInfo := fun _ => .raised false
  infoResp : String → FetchOutcome YInfo := fun _ => .raised false
  financialsResp : String → FinOutcome := fun _ => .raised
  dividendsResp : String → DivOutcome := fun _ => .got []
  historyResp : String → HistOutcome := fun _ => .raised
  jqDaily : String → Option QuoteRecord := fun _ => none
  jqListed : String → Option JInfo := fun _ => none
  jqStatements : String → Option JStatements := fun _ => none
  jqDailyAll : List RawDailyQuote := []
  listedRaw : List RawListedInfo := []

/-- The module-level mutable state of `stock_data.py`. -/
structure St where
  stockCache : List (String × QuoteRecord × ℚ) := []
  listedCache : List ListedItem := []
  listedExpiry : Option ℚ := none
  moversCache : Option MoversSnap := none
  moversExpiry : Option ℚ := none
deriving DecidableEq, Repr

/-! ## Constants from the source -/

/-- `_CACHE_DURATION = timedelta(minutes=5)`, in seconds. -/
def CACHE_DURATION : ℚ := 300

/-- `_LISTED_CACHE_DURATION = timedelta(hours=24)`, in seconds. -/
def LISTED_CACHE_DURATION : ℚ := 86400

/-- `_MARKET_MOVERS_CACHE_DURATION = timedelta(minutes=30)`, in seconds. -/
def MOVERS_CACHE_DURATION : ℚ := 1800

/-- `_MIN_REQUEST_INTERVAL = 1.0` seconds. -/
def MIN_REQUEST_INTERVAL : ℚ := 1

/-- The token is stamped to expire `timedelta(hours=23)` after issuance
(23 hours, in seconds). -/
def JQUANTS_TOKEN_TTL : ℚ := 23 * 3600

/-- The staleness note `fetch_stock_data` attaches to J-Quants results. -/
def jqDelayNote : String := "Data delayed by ~12 weeks (J-Quants free plan)"

/-- `_JAPANESE_STOCK_NAMES`. -/
def JAPANESE_STOCK_NAMES : List (String × String) :=
  [("7203", "トヨタ自動車"), ("6758", "ソニーグループ"), ("9984", "ソフトバンクグループ"),
   ("9434", "ソフトバンク"), ("6861", "キーエンス"), ("9983", "ファーストリテイリング"),
   ("8035", "東京エレクトロン"), ("4063", "信越化学工業"), ("8267", "イオン"),
   ("4503", "アステラス製薬"), ("6501", "日立製作所"), ("6902", "デンソー"),
   ("7267", "本田技研工業"), ("7974", "任天堂"), ("8306", "三菱UFJフィナンシャル・グループ"),
   ("8316", "三井住友フィナンシャルグループ"), ("8411", "みずほフィナンシャルグループ"),
   ("9432", "日本電信電話"), ("9433", "KDDI"), ("2914", "日本たばこ産業"),
   ("4502", "武田薬品工業"), ("6954", "ファナック"), ("6367", "ダイキン工業"),
   ("6098", "リクルートホールディングス"), ("4661", "オリエンタルランド"), ("6273", "SMC"),
   ("6594", "日本電産"), ("8766", "東京海上ホールディングス"), ("4568", "第一三共"),
   ("6981", "村田製作所"), ("6857", "アドバンテスト"), ("4519", "中外製薬"),
   ("8801", "三井不動産"), ("6723", "ルネサスエレクトロニクス"), ("7751", "キヤノン"),
   ("6971", "京セラ"), ("6702", "富士通"), ("3382", "セブン&アイ・ホールディングス"),
   ("2802", "味の素"), ("9020", "東日本旅客鉄道")]

/-- `DEFAULT_POPULAR_SYMBOLS` from `routers/stocks.py`. -/
def DEFAULT_POPULAR_SYMBOLS : List String :=
  ["7203", "6758", "9984", "9434", "6861", "9983", "8035", "4063", "8267", "4503"]

/-! ## Symbol normalizer -/

/-- `_normalize_symbol`: convert a local symbol to the yfinance wire form
(appending the `.T` Tokyo suffix to purely numeric codes). -/
def normalize_symbol (symbol : String) : String :=
  let cleaned := pyUpper (pyStrip symbol)
  if isDigits cleaned then cleaned ++ ".T" else cleaned

/-- `_clean_symbol`: the canonical internal key (trim, uppercase, remove
the `.T` exchange suffix). -/
def clean_symbol (symbol : String) : String :=
  strRemove (pyUpper (pyStrip symbol)) ".T"

/-- Assoc-list lookup used to embed Python `dict.get`. -/
def alookup {α : Type} (k : String) : List (String × α) → Option α
  | [] => none
  | (k', v) :: rest => if k' = k then some v else alookup k rest

/-- `_get_japanese_stock_name`. -/
def get_japanese_stock_name (symbol englishName : String) : String :=
  match alookup (clean_symbol symbol) JAPANESE_STOCK_NAMES with
  | some jp => jp
  | none => englishName


/-! ## Quote cache -/

/-- Lookup in the combined `_stock_cache` / `_cache_expiry` store (both
dicts are always written together by `_set_cache`). -/
def cacheFind (k : String) : List (String × QuoteRecord × ℚ) → Option (QuoteRecord × ℚ)
  | [] => none
  | (k', v) :: rest => if k' = k then some v else cacheFind k rest

/-- Overwrite-or-append on the cache store (Python dict assignment). -/
def cacheUpsert (k : String) (r : QuoteRecord) (e : ℚ) :
    List (String × QuoteRecord × ℚ) → List (String × QuoteRecord × ℚ)
  | [] => [(k, (r, e))]
  | (k', v) :: rest =>
    if k' = k then (k, (r, e)) :: rest else (k', v) :: cacheUpsert k r e rest

/-- `_get_cached_data`: the cached record, when present and unexpired. -/
def get_cached_data (st : St) (now : ℚ) (symbol : String) : Option QuoteRecord :=
  match cacheFind (clean_symbol symbol) st.stockCache with
  | some (r, e) => if now < e then some r else none
  | none => none

/-- `_set_cache`. -/
def set_cache (st : St) (now : ℚ) (symbol : String) (data : QuoteRecord) : St :=
  { st with stockCache :=
      cacheUpsert (clean_symbol symbol) data (now + CACHE_DURATION) st.stockCache }

/-- Overwrite-or-append on the per-call result dict of `fetch_stock_data`. -/
def dinsert (k : String) (v : QuoteRecord) :
    List (String × QuoteRecord) → List (String × QuoteRecord)
  | [] => [(k, v)]
  | (k', v') :: rest =>
    if k' = k then (k, v) :: rest else (k', v') :: dinsert k v rest

/-! ## Token manager (`_get_jquants_token`) -/

/-- `_jquants_id_token` / `_jquants_token_expiry`. -/
structure TokenSt where
  idToken : Option String := none
  tokenExpiry : Option ℚ := none
deriving DecidableEq, Repr

/-- Outcome of the `POST /token/auth_refresh` exchange: HTTP 200 with the
(possibly missing) `idToken` field, a non-200 status, or an exception. -/
inductive ExchangeOutcome where
  | httpOk (idToken : Option String)
  | httpErr
  | raisedExc
deriving DecidableEq, Repr

/-- The cached-token validity test of `_get_jquants_token` (Python
truthiness of the token string, presence of the expiry, clock check). -/
def token_valid (st : TokenSt) (now : ℚ) : Bool :=
  match st.idToken, st.tokenExpiry with
  | some tok, some e => tok ≠ "" && now < e
  | _, _ => false

/-- `_get_jquants_token`.  `refreshTokenConfigured` is the truthiness of
`JQUANTS_REFRESH_TOKEN` (true under the shipped default).  The returned
`Bool` records whether the refresh exchange was performed. -/
def get_jquants_token (refreshTokenConfigured : Bool) (xchg : ExchangeOutcome)
    (now : ℚ) (st : TokenSt) : Option String × TokenSt × Bool :=
  if token_valid st now then (st.idToken, st, false)
  else if !refreshTokenConfigured then (none, st, false)
  else
    match xchg with
    | .httpOk tok => (tok, { idToken := tok, tokenExpiry := some (now + JQUANTS_TOKEN_TTL) }, true)
    | .httpErr => (none, st, true)
    | .raisedExc => (none, st, true)

/-! ## Rate limiter (`_rate_limit_wait`) -/

/-- `_rate_limit_wait` under an idealised clock: given the clock value at
entry and the stored `_last_request_time`, return the clock value when the
call completes (after the `time.sleep`, which advances the clock by the
requested amount) and the new `_last_request_time`. -/
def rate_limit_wait (now last : ℚ) : ℚ × ℚ :=
  let elapsed := now - last
  if elapsed < MIN_REQUEST_INTERVAL then
    let done := now + (MIN_REQUEST_INTERVAL - elapsed)
    (done, done)
  else
    (now, now)

/-- Completion times of `1 + deltas.length` consecutive acquires: the
first is issued at clock `t0` with stored last-call time `last`; each
subsequent call is issued the corresponding `delta` after the previous
call completed. -/
def run_acquires (t0 last : ℚ) : List ℚ → List ℚ
  | [] => [(rate_limit_wait t0 last).1]
  | delta :: rest =>
    let c := rate_limit_wait t0 last
    c.1 :: run_acquires (c.1 + delta) c.2 rest

/-! ## Stable sorting (Python `sorted`) -/

/-- Insert keeping the earlier element first on ties (Python `sorted` is
stable). -/
def insertLe {α : Type} (le : α → α → Bool) (x : α) : List α → List α
  | [] => [x]
  | y :: ys => if le x y then x :: y :: ys else y :: insertLe le x ys

/-- Stable insertion sort: the embedding of Python `sorted(l, key=...)`. -/
def sortByLe {α : Type} (le : α → α → Bool) : List α → List α
  | [] => []
  | x :: xs => insertLe le x (sortByLe le xs)

/-- Adjacent-pairs ordering check: `l` is sorted for `le`. -/
def chainLe {α : Type} (le : α → α → Bool) : List α → Bool
  | [] => true
  | [_] => true
  | x :: y :: rest => le x y && chainLe le (y :: rest)

/-! ## Yahoo Finance adapter (`_fetch_yfinance_data`) -/

/-- `_percentage`: yfinance reports yields/payouts as fractions `≤ 1`. -/
def percentage (value : Option ℚ) : Option ℚ :=
  match value with
  | none => none
  | some n => if n ≤ 1 then some (n * 100) else some n

/-- The `change` / `change_pct` computation shared by the source's
provider adapters: both stay `None` unless the price is present and the
previous close is truthy (non-null, non-zero). -/
def compute_change (price previous_close : Option ℚ) : Option ℚ × Option ℚ :=
  match price, previous_close with
  | some p, some c => if c = 0 then (none, none) else (some (p - c), some ((p - c) / c * 100))
  | _, _ => (none, none)

/-- The empty dict substituted when a `fast_info` / `info` call fails. -/
def emptyFastInfo : FastInfo := {}

/-- The empty dict substituted when an `info` call fails. -/
def emptyYInfo : YInfo := {}

/-- Body of `_fetch_yfinance_data` after the `fast_info` read: the `info`
endpoint is read unconditionally (an exception there is merely logged),
then the record is built; a missing price aborts with `None`. -/
def yf_simple_body (env : Env) (cleaned yfSym : String) (f : FastInfo) :
    Option QuoteRecord × List Ev :=
  let i := match env.infoResp yfSym with
    | .got i => i
    | .raised _ => emptyYInfo
  let tr := [Ev.fastInfoQ yfSym, Ev.infoQ yfSym]
  let price := pyOr (pyOr f.lastPriceU f.lastPriceC) i.currentPrice
  if price.isNone then (none, tr)
  else
    let previous_close := pyOr (pyOr f.prevCloseU f.prevCloseC) i.previousClose
    let chg := compute_change price previous_close
    let englishName := pyStrD (pyOrS (pyOrS i.longName i.shortName) i.nameF) cleaned
    let stockName := get_japanese_stock_name cleaned englishName
    (some { symbol := cleaned
            name := some stockName
            nameEn := some englishName
            price := price
            previousClose := previous_close
            change := chg.1
            changePct := chg.2
            high := pyOr (pyOr f.dayHighU f.dayHighC) i.dayHigh
            low := pyOr (pyOr f.dayLowU f.dayLowC) i.dayLow
            per := i.trailingPE
            pbr := i.priceToBook
            dividendYield := percentage i.dividendYieldRaw
            dividendPayoutPct := percentage i.payoutRatioRaw
            marketCap := i.marketCap
            source := some "yahoo_finance" }, tr)

/-- `_fetch_yfinance_data`: if the `fast_info` read raises with a detected
rate-limit message the function aborts; any other `fast_info` failure
falls back to an empty dict and the function continues. -/
def fetch_yfinance_data (env : Env) (symbol : String) : Option QuoteRecord × List Ev :=
  let yfSym := normalize_symbol symbol
  let cleaned := clean_symbol symbol
  match env.fastResp yfSym with
  | .raised true => (none, [Ev.fastInfoQ yfSym])
  | .raised false => yf_simple_body env cleaned yfSym emptyFastInfo
  | .got f => yf_simple_body env cleaned yfSym f

/-! ## Detailed Yahoo Finance adapter (`_try_yahoo_finance_detailed`) -/

/-- Revenue cell of one financials column, honouring the row-existence
checks of the source (`"Total Revenue" in financials.index` else
`"売上高"`). -/
def colRevenue (t : FinTable) (c : FinCol) : Option ℚ :=
  if t.hasTotalRevenue then c.totalRevenue
  else if t.hasNetSalesJp then c.netSalesJp
  else none

/-- Profit cell of one financials column (`"Net Income"` else
`"当期純利益"`). -/
def colProfit (t : FinTable) (c : FinCol) : Option ℚ :=
  if t.hasNetIncome then c.netIncome
  else if t.hasNetIncomeJp then c.netIncomeJp
  else none

/-- Yearly aggregation of the dividends series
(`yearly_dividends[year] += float(amount)`), keyed in first-occurrence
order like a Python dict. -/
def divAccum : List (Int × ℚ) → Int → ℚ → List (Int × ℚ)
  | [], y, a => [(y, a)]
  | (y', v) :: rest, y, a =>
    if y' = y then (y', v + a) :: rest else (y', v) :: divAccum rest y a

/-- Integer assoc lookup for the yearly dividend sums. -/
def zlookup (k : Int) : List (Int × ℚ) → Option ℚ
  | [] => none
  | (k', v) :: rest => if k' = k then some v else zlookup k rest

/-- The dividend-history computation of `_try_yahoo_finance_detailed`:
aggregate per year, sort the years ascending, keep the last six. -/
def dividend_series (rows : List (Int × ℚ)) : List ℚ × List String :=
  if rows.isEmpty then ([], [])
  else
    let yearly := rows.foldl (fun acc p => divAccum acc p.1 p.2) []
    let sortedYears := sortByLe (fun a b => decide (a ≤ b)) (yearly.map (·.1))
    let recent := sortedYears.drop (sortedYears.length - 6)
    (recent.map (fun y => (zlookup y yearly).getD 0), recent.map (fun y => toString y))

/-- The price-history computation of `_try_yahoo_finance_detailed`:
drop null closes, keep the last seven rows. -/
def history_series (rows : List (Option ℚ × String)) : List ℚ × List String :=
  if rows.isEmpty then ([], [])
  else
    let closes := rows.filterMap (fun p => p.1.map (fun v => (v, p.2)))
    let recent := closes.drop (closes.length - 7)
    (recent.map (·.1), recent.map (·.2))

/-- Body of `_try_yahoo_finance_detailed` once `fast_info` and `info` have
been read. -/
def yf_detailed_body (env : Env) (symbol yfSym : String) (f : FastInfo) (i : YInfo) :
    Option QuoteRecord × List Ev :=
  let tr0 := [Ev.fastInfoQ yfSym, Ev.infoQ yfSym]
  let hasPrice := qTruthy (pyOr (pyOr f.lastPriceU f.lastPriceC) i.currentPrice)
  if !hasPrice && !strTruthy i.longName && !strTruthy i.shortName then (none, tr0)
  else
    let price := pyOr (pyOr f.lastPriceU f.lastPriceC) i.currentPrice
    let previous_close := pyOr (pyOr f.prevCloseU f.prevCloseC) i.previousClose
    let dayHigh := pyOr (pyOr f.dayHighU f.dayHighC) i.dayHigh
    let dayLow := pyOr (pyOr f.dayLowU f.dayLowC) i.dayLow
    let chg := compute_change price previous_close
    let fin := match env.financialsResp symbol with
      | .raised => (none, none, [], [])
      | .absent => (none, none, [], [])
      | .got t =>
        let revenue := match t.cols.head? with
          | some c => colRevenue t c
          | none => none
        let profit := match t.cols.head? with
          | some c => colProfit t c
          | none => none
        (revenue, profit,
         ((t.cols.take 5).filterMap (colRevenue t)).reverse,
         ((t.cols.take 5).filterMap (colProfit t)).reverse)
    let trF := tr0 ++ [Ev.financialsQ symbol]
    match env.dividendsResp symbol with
    | .raised => (none, trF ++ [Ev.dividendsQ symbol])
    | .got divRows =>
      let divs := dividend_series divRows
      let hist := match env.historyResp symbol with
        | .raised => ([], [])
        | .got rows => history_series rows
      let englishName := pyStrD (pyOrS (pyOrS i.longName i.shortName) i.nameF) symbol
      let stockName := get_japanese_stock_name symbol englishName
      (some { symbol := symbol
              name := some stockName
              nameEn := some englishName
              price := price
              previousClose := previous_close
              change := chg.1
              changePct := chg.2
              high := dayHigh
              low := dayLow
              per := i.trailingPE
              pbr := i.priceToBook
              dividendYield := percentage i.dividendYieldRaw
              dividendPayoutPct := percentage i.payoutRatioRaw
              marketCap := i.marketCap
              revenue := fin.1
              profit := fin.2.1
              revenueHistory := fin.2.2.1
              profitHistory := fin.2.2.2
              dividendHistory := divs.1
              dividendLabels := divs.2
              priceHistory := hist.1
              priceHistoryLabels := hist.2
              sector := i.sector
              industry := i.industry
              description := i.longBusinessSummary },
       trF ++ [Ev.dividendsQ symbol, Ev.historyQ symbol])

/-- Step of `_try_yahoo_finance_detailed` after `fast_info`: the `info`
endpoint is read unconditionally; in this variant a detected rate-limit
message on either endpoint aborts with `None`. -/
def yf_detailed_with_fast (env : Env) (symbol yfSym : String) (f : FastInfo) :
    Option QuoteRecord × List Ev :=
  match env.infoResp yfSym with
  | .raised true => (none, [Ev.fastInfoQ yfSym, Ev.infoQ yfSym])
  | .raised false => yf_detailed_body env symbol yfSym f emptyYInfo
  | .got i => yf_detailed_body env symbol yfSym f i

/-- `_try_yahoo_finance_detailed`. -/
def try_yahoo_finance_detailed (env : Env) (symbol yfSym : String) :
    Option QuoteRecord × List Ev :=
  match env.fastResp yfSym with
  | .raised true => (none, [Ev.fastInfoQ yfSym])
  | .raised false => yf_detailed_with_fast env symbol yfSym emptyFastInfo
  | .got f => yf_detailed_with_fast env symbol yfSym f

/-! ## J-Quants detailed adapter and static fallback -/

/-- `_get_mock_data`: the static fallback table was removed from the
source; it always reports no entry. -/
def get_mock_data (_symbol : String) : Option QuoteRecord := none

/-- `_try_jquants_detailed`: enrich the daily-quotes record with listed
info and financial statements.  The daily-quotes / listed-info /
statements HTTP adapters are oracles of the environment. -/
def try_jquants_detailed (env : Env) (symbol : String) :
    Option QuoteRecord × List Ev :=
  match env.jqDaily symbol with
  | none => (none, [Ev.jqDailyQ symbol])
  | some q0 =>
    if q0.price.isNone then (none, [Ev.jqDailyQ symbol])
    else
      let q1 : QuoteRecord := match env.jqListed symbol with
        | some info =>
          { q0 with name := some info.name, sector := info.sector, industry := info.industry }
        | none => q0
      let q2 : QuoteRecord := match env.jqStatements symbol with
        | some stt =>
          let q := { q1 with
                     revenue := stt.revenue
                     profit := stt.profit
                     revenueHistory := stt.revenueHistory
                     profitHistory := stt.profitHistory
                     dividendHistory := stt.dividendHistory
                     dividendLabels := stt.dividendLabels }
          match q.price with
          | some p =>
            let q := if qTruthy stt.eps then { q with per := some (p / stt.eps.getD 0) } else q
            if qTruthy stt.bps then { q with pbr := some (p / stt.bps.getD 0) } else q
          | none => q
        | none => q1
      let q3 : QuoteRecord :=
        if qTruthy q2.previousClose && qTruthy q2.price then
          let change := q2.price.getD 0 - q2.previousClose.getD 0
          let q := { q2 with change := some change }
          if q2.previousClose.getD 0 ≠ 0 then
            { q with changePct := some (change / q2.previousClose.getD 0 * 100) }
          else q
        else q2
      (some q3, [Ev.jqDailyQ symbol, Ev.jqListedQ symbol, Ev.jqStatementsQ symbol])

/-! ## Provider chain (`fetch_stock_data`, `fetch_stock_data_detailed`) -/

/-- Step 4 of the chain for one symbol: the static fallback. -/
def fetch_one_mock (results : List (String × QuoteRecord)) (st : St)
    (cleaned : String) (tr : List Ev) :
    List (String × QuoteRecord) × St × List Ev :=
  match get_mock_data cleaned with
  | some m => (dinsert cleaned { m with source := some "mock" } results, st, tr ++ [Ev.mockQ cleaned])
  | none => (results, st, tr ++ [Ev.mockQ cleaned])

/-- The decoration `fetch_stock_data` applies to an accepted J-Quants
record (listed-info name, provenance tag, staleness note). -/
def jq_decorate (env : Env) (cleaned : String) (j : QuoteRecord) : QuoteRecord :=
  let j1 := match env.jqListed cleaned with
    | some info => { j with name := some info.name }
    | none => j
  { j1 with source := some "jquants", note := some jqDelayNote }

/-- Step 3 of the chain for one symbol: the J-Quants attempt. -/
def fetch_one_jq (env : Env) (now : ℚ) (results : List (String × QuoteRecord))
    (st : St) (cleaned : String) (yfTr : List Ev) :
    List (String × QuoteRecord) × St × List Ev :=
  let tr := yfTr ++ [Ev.jqDailyQ cleaned]
  match env.jqDaily cleaned with
  | some j =>
    if j.price.isSome then
      let j2 := jq_decorate env cleaned j
      (dinsert cleaned j2 results, set_cache st now cleaned j2, tr ++ [Ev.jqListedQ cleaned])
    else fetch_one_mock results st cleaned tr
  | none => fetch_one_mock results st cleaned tr

/-- The per-symbol loop body of `fetch_stock_data`. -/
def fetch_one (env : Env) (now : ℚ) (results : List (String × QuoteRecord))
    (st : St) (symbol : String) :
    List (String × QuoteRecord) × St × List Ev :=
  let cleaned := clean_symbol symbol
  match get_cached_data st now cleaned with
  | some cached => (dinsert cleaned cached results, st, [Ev.cacheHit cleaned])
  | none =>
    let yf := fetch_yfinance_data env cleaned
    match yf.1 with
    | some y =>
      if y.price.isSome then
        (dinsert cleaned y results, set_cache st now cleaned y, yf.2)
      else fetch_one_jq env now results st cleaned yf.2
    | none => fetch_one_jq env now results st cleaned yf.2

/-- `fetch_stock_data`: the provider chain over a list of symbols.  All
per-symbol failures are absorbed (every branch is total), mirroring the
catch-all handlers of the source. -/
def fetch_stock_data (env : Env) (now : ℚ) (st : St) (symbols : List String) :
    List (String × QuoteRecord) × St × List Ev :=
  symbols.foldl
    (fun acc symbol =>
      let step := fetch_one env now acc.1 acc.2.1 symbol
      (step.1, step.2.1, acc.2.2 ++ step.2.2))
    ([], st, [])

/-- Steps 2–4 of `fetch_stock_data_detailed` (after a cache miss or a
cached record with a null price). -/
def fetch_detailed_jq (env : Env) (now : ℚ) (st : St) (cleaned : String)
    (tr1 : List Ev) : Option QuoteRecord × St × List Ev :=
  let jq := try_jquants_detailed env cleaned
  match jq.1 with
  | some j =>
    if j.price.isSome then
      let j2 := { j with source := some "jquants", note := some jqDelayNote }
      (some j2, set_cache st now cleaned j2, tr1 ++ jq.2)
    else
      match get_mock_data cleaned with
      | some m => (some { m with source := some "mock" }, st, tr1 ++ jq.2 ++ [Ev.mockQ cleaned])
      | none => (none, st, tr1 ++ jq.2 ++ [Ev.mockQ cleaned])
  | none =>
    match get_mock_data cleaned with
    | some m => (some { m with source := some "mock" }, st, tr1 ++ jq.2 ++ [Ev.mockQ cleaned])
    | none => (none, st, tr1 ++ jq.2 ++ [Ev.mockQ cleaned])

/-- The provider part of `fetch_stock_data_detailed`. -/
def fetch_detailed_rest (env : Env) (now : ℚ) (st : St) (cleaned yfSym : String) :
    Option QuoteRecord × St × List Ev :=
  let yf := try_yahoo_finance_detailed env cleaned yfSym
  match yf.1 with
  | some y =>
    if y.price.isSome then
      let y2 := { y with source := some "yahoo_finance" }
      (some y2, set_cache st now cleaned y2, yf.2)
    else fetch_detailed_jq env now st cleaned yf.2
  | none => fetch_detailed_jq env now st cleaned yf.2

/-- `fetch_stock_data_detailed`: the single-symbol detailed entry point;
the cached record is served only when it carries a non-null price. -/
def fetch_stock_data_detailed (env : Env) (now : ℚ) (st : St) (symbol : String) :
    Option QuoteRecord × St × List Ev :=
  let cleaned := clean_symbol symbol
  let yfSym := normalize_symbol symbol
  match get_cached_data st now cleaned with
  | some cached =>
    if cached.price.isSome then (some cached, st, [Ev.cacheHit cleaned])
    else fetch_detailed_rest env now st cleaned yfSym
  | none => fetch_detailed_rest env now st cleaned yfSym

/-! ## Listed directory (`get_listed_stocks`) -/

/-- `_normalize_listed_item`. -/
def normalize_listed_item (info : RawListedInfo) : Option ListedItem :=
  let symbol := pyStrip
    (pyStrD (pyOrS (pyOrS (pyOrS info.codeC info.codeL) info.symbolL) info.symbolC) "")
  if symbol = "" then none
  else
    let cleaned := clean_symbol symbol
    let name := pyStrD (pyOrS (pyOrS info.companyName info.nameC) info.nameL) cleaned
    let nameEn := pyStrD (pyOrS (pyOrS info.companyNameEnglish info.nameEnglish) info.nameEnL) ""
    let market := pyOrS (pyOrS info.marketName info.marketL) info.marketCode
    some { symbol := cleaned, name := name, nameEn := nameEn, market := market }

/-- The corporate-suffix tokens stripped by `_normalize_query`, in source
order (each is removed wherever it occurs, sequentially). -/
def COMPANY_SUFFIXES : List String :=
  ["株式会社", "（株）", "(株)", "有限会社", "合同会社", "ホールディングス",
   "hd", "hldgs", "co.,ltd.", "co., ltd.", "ltd.", "inc.", "corp.",
   "corporation", "holdings"]

/-- `_normalize_query`: lowercase, strip, remove ASCII and full-width
spaces, then remove each corporate-suffix token. -/
def normalize_query (value : String) : String :=
  let n := pyLower (pyStrip value)
  let n := strRemove n " "
  let n := strRemove n "　"
  COMPANY_SUFFIXES.foldl (fun acc sfx => strRemove acc sfx) n

/-- `_to_katakana`: shift hiragana (U+3041–U+3096) up by 0x60. -/
def to_katakana (value : String) : String :=
  ⟨value.data.map (fun ch =>
    if 0x3041 ≤ ch.toNat ∧ ch.toNat ≤ 0x3096 then Char.ofNat (ch.toNat + 0x60) else ch)⟩

/-- `_to_hiragana`: shift katakana (U+30A1–U+30F6) down by 0x60. -/
def to_hiragana (value : String) : String :=
  ⟨value.data.map (fun ch =>
    if 0x30A1 ≤ ch.toNat ∧ ch.toNat ≤ 0x30F6 then Char.ofNat (ch.toNat - 0x60) else ch)⟩

/-- The folded variants of a normalized query.  The source stores them in
a `set`; the list may repeat elements, which does not affect the
`any`-based matching below. -/
def query_variants (q : String) : List String := [q, to_katakana q, to_hiragana q]

/-- The per-candidate match test of `get_listed_stocks`: some variant of
the already-normalized query occurs in the normalized symbol, native name
or transliterated name. -/
def listed_query_match (query : String) (item : ListedItem) : Bool :=
  (query_variants query).any (fun q => containsStr q (normalize_query item.symbol))
  || (query_variants query).any (fun q => containsStr q (normalize_query item.name))
  || (query_variants query).any (fun q => containsStr q (normalize_query item.nameEn))

/-- The full match test from a raw search string. -/
def matches_search (search : String) (item : ListedItem) : Bool :=
  listed_query_match (normalize_query search) item

/-- The snapshot-refresh step of `get_listed_stocks`: refetch when the
cache is empty, has no expiry, or has expired. -/
def listed_refresh (env : Env) (now : ℚ) (st : St) : St :=
  let needRefresh := st.listedCache.isEmpty ||
    (match st.listedExpiry with
     | none => true
     | some e => decide (e ≤ now))
  if needRefresh then
    { st with
      listedCache := env.listedRaw.filterMap normalize_listed_item
      listedExpiry := some (now + LISTED_CACHE_DURATION) }
  else st

/-- `get_listed_stocks`. -/
def get_listed_stocks (env : Env) (now : ℚ) (st : St) (search : Option String) :
    List ListedItem × St :=
  let st1 := listed_refresh env now st
  match search with
  | none => (st1.listedCache, st1)
  | some srch =>
    if srch = "" then (st1.listedCache, st1)
    else
      let query := normalize_query srch
      if query = "" then (st1.listedCache, st1)
      else (st1.listedCache.filter (listed_query_match query), st1)

/-! ## Full-universe market movers (`get_market_movers_all`) -/

/-- The coalesced raw symbol string of one daily quote
(`str(quote.get("Code") or quote.get("code") or quote.get("Symbol") or
quote.get("symbol") or "")`). -/
def raw_code_str (q : RawDailyQuote) : String :=
  pyStrD (pyOrS (pyOrS (pyOrS q.codeC q.codeL) q.symC) q.symL) ""

/-- Build one movers entry from a raw daily quote; quotes without a
symbol are skipped. -/
def mover_entry (q : RawDailyQuote) : Option RankingEntry :=
  let symbol := pyStrip (raw_code_str q)
  if symbol = "" then none
  else
    let price := pyOrD (pyOr q.close q.adjustmentClose) 0
    let prev := pyOr (pyOr q.previousClose q.previousClosePrice) q.previousCloseValue
    let change0 := q.changeRaw
    let changePct0 := pyOr (pyOr (pyOr q.changePercentage q.changePercent) q.changePctRaw) q.changeRate
    let change1 := if change0.isNone && qTruthy prev then some (price - prev.getD 0) else change0
    let changePct1 :=
      if changePct0.isNone && qTruthy prev then
        if prev.getD 0 ≠ 0 then some ((price - prev.getD 0) / prev.getD 0 * 100) else changePct0
      else changePct0
    some { symbol := symbol
           name := pyStrD q.companyName symbol
           price := price
           change := pyOrD change1 0
           changePct := pyOrD changePct1 0 }

/-- Descending comparison on the change percentage
(`sorted(..., reverse=True)`). -/
def rankDesc (a b : RankingEntry) : Bool := decide (b.changePct ≤ a.changePct)

/-- Ascending comparison on the change percentage. -/
def rankAsc (a b : RankingEntry) : Bool := decide (a.changePct ≤ b.changePct)

/-- The recomputation branch of `get_market_movers_all`. -/
def movers_compute (env : Env) (now : ℚ) (st : St) (limit : ℕ) : MoversSnap × St :=
  let entries := env.jqDailyAll.filterMap mover_entry
  let snap : MoversSnap :=
    { topGainers := (sortByLe rankDesc entries).take limit
      topLosers := (sortByLe rankAsc entries).take limit }
  (snap, { st with moversCache := some snap, moversExpiry := some (now + MOVERS_CACHE_DURATION) })

/-- `get_market_movers_all`. -/
def get_market_movers_all (env : Env) (now : ℚ) (st : St) (limit : ℕ) : MoversSnap × St :=
  match st.moversCache, st.moversExpiry with
  | some mc, some e => if now < e then (mc, st) else movers_compute env now st limit
  | _, _ => movers_compute env now st limit

/-! ## Rankings endpoint (`get_stock_rankings` in `routers/stocks.py`) -/

/-- Result of the rankings route: a snapshot, or the explicit HTTP 503
"unavailable" failure. -/
inductive RankingsResult where
  | ok (topGainers topLosers : List RankingEntry)
  | unavailable
deriving DecidableEq, Repr

/-- The popular-scope entry construction: one entry per configured symbol
that is present in the fetched mapping (`realtime_data.get(symbol)`); null
metrics default to `0.0` through the Python `or` chains. -/
def ranking_entries (results : List (String × QuoteRecord)) (symbolsToUse : List String) :
    List RankingEntry :=
  symbolsToUse.filterMap (fun symbol =>
    match alookup symbol results with
    | none => none
    | some m =>
      some { symbol := symbol
             name := m.name.getD symbol
             price := pyOrD m.price 0
             change := pyOrD m.change 0
             changePct := pyOrD m.changePct 0 })

/-- `get_stock_rankings`: the ranking route body for a given configured
symbol list (`POPULAR_STOCK_SYMBOLS`). -/
def get_stock_rankings (env : Env) (now : ℚ) (st : St) (limit : ℕ) (scope : String)
    (symbolsToUse : List String) : RankingsResult × St :=
  if scope = "all" then
    let movers := get_market_movers_all env now st limit
    (RankingsResult.ok movers.1.topGainers movers.1.topLosers, movers.2)
  else
    let fetched := fetch_stock_data env now st symbolsToUse
    if fetched.1.isEmpty then (RankingsResult.unavailable, fetched.2.1)
    else
      let entries := ranking_entries fetched.1 symbolsToUse
      if entries.isEmpty then (RankingsResult.unavailable, fetched.2.1)
      else
        (RankingsResult.ok ((sortByLe rankDesc entries).take limit)
          ((sortByLe rankAsc entries).take limit), fetched.2.1)

/-! ## Fixture environments and records used by the theorems -/

/-- The directory fixture used by the C10 witness and the C9 theorems:
one entry whose stored name is native-script only and one with a
transliterated name. -/
def listedEnv : Env :=
  { listedRaw :=
      [{ codeC := some "7203", companyName := some "トヨタ自動車" },
       { codeC := some "7202", companyName := some "いすゞ自動車",
         companyNameEnglish := some "Toyota Motor" }] }

/-- The two normalised entries of `listedEnv`. -/
def listedToyota : ListedItem :=
  { symbol := "7203", name := "トヨタ自動車", nameEn := "", market := none }

/-- Second entry of `listedEnv`. -/
def listedIsuzu : ListedItem :=
  { symbol := "7202", name := "いすゞ自動車", nameEn := "Toyota Motor", market := none }

/-- A fast-endpoint payload that already carries a price. -/
def fastC3 : FastInfo := { lastPriceU := some 100, prevCloseU := some 90 }

/-- Environment in which the fast endpoint succeeds with a price. -/
def envC3 : Env := { fastResp := fun _ => .got fastC3, infoResp := fun _ => .got {} }

/-- Whether a boundary outcome is an exception with a detected rate-limit
message. -/
def isRateLimitRaise {α : Type} : FetchOutcome α → Bool
  | .raised true => true
  | _ => false

/-- A fast-endpoint payload with the given last price and previous close. -/
def mkFast (p c : ℚ) : FetchOutcome FastInfo :=
  .got { lastPriceU := some p, prevCloseU := some c }

/-- The five-symbol ranking fixture: change percentages 5, -3, 0, 10, -8. -/
def env5 : Env :=
  { fastResp := fun s =>
      if s = "ALFA" then mkFast 105 100
      else if s = "BETA" then mkFast 97 100
      else if s = "GAMA" then mkFast 100 100
      else if s = "DLTA" then mkFast 110 100
      else if s = "EPSL" then mkFast 92 100
      else .raised false }

/-- The configured symbols of the fixture. -/
def syms5 : List String := ["ALFA", "BETA", "GAMA", "DLTA", "EPSL"]

/-- Fixture ranking entry with change percentage 5. -/
def entA : RankingEntry := ⟨"ALFA", "ALFA", 105, 5, 5⟩

/-- Fixture ranking entry with change percentage -3. -/
def entB : RankingEntry := ⟨"BETA", "BETA", 97, -3, -3⟩

/-- Fixture ranking entry with change percentage 0. -/
def entC : RankingEntry := ⟨"GAMA", "GAMA", 100, 0, 0⟩

/-- Fixture ranking entry with change percentage 10. -/
def entD : RankingEntry := ⟨"DLTA", "DLTA", 110, 10, 10⟩

/-- Fixture ranking entry with change percentage -8. -/
def entE : RankingEntry := ⟨"EPSL", "EPSL", 92, -8, -8⟩

/-- Environment in which every provider fails. -/
def envFail : Env := {}

/-- A cached record used by the C1 witness. -/
def recC : QuoteRecord := { symbol := "7203", price := some 50 }

/-- A state holding `recC` for symbol 7203 until time 100. -/
def stHit : St := { stockCache := [("7203", (recC, 100))] }

/-- The record the fixture Yahoo adapter produces for "ALFA". -/
def recA : QuoteRecord :=
  { symbol := "ALFA", name := some "ALFA", nameEn := some "ALFA", price := some 105
    previousClose := some 100, change := some 5, changePct := some 5
    source := some "yahoo_finance" }

/-- The J-Quants daily record used by the C1 witness. -/
def jqRec : QuoteRecord := { symbol := "7203", name := some "7203", price := some 42 }

/-- Environment in which only the secondary provider succeeds. -/
def envJ : Env :=
  { jqDaily := fun _ => some jqRec
    jqListed := fun _ => some { name := "トヨタ自動車" } }

/-- A raw daily quote whose code is lower-case with an exchange suffix. -/
def rawQ7 : RawDailyQuote :=
  { codeC := some " 7203.t ", close := some 100, previousClose := some 90
    companyName := some "Toyota Motor" }

/-- Environment delivering `rawQ7` as the daily snapshot. -/
def envC7 : Env := { jqDailyAll := [rawQ7] }

/-- The movers entry built from `rawQ7`. -/
def entC7 : RankingEntry := ⟨"7203.t", "Toyota Motor", 100, 10, 100 / 9⟩

/-- The canonical-key invariant on the quote cache. -/
def CacheCanon (st : St) : Prop :=
  ∀ q ∈ st.stockCache, ∃ u, (q : String × QuoteRecord × ℚ).1 = clean_symbol u

/-! ## Theorems -/
set_option maxRecDepth 6000

theorem mem_insertLe {α : Type} (le : α → α → Bool) (x a : α) (l : List α) :
    a ∈ insertLe le x l ↔ a = x ∨ a ∈ l := by
  induction l with
  | nil => simp [insertLe]
  | cons y ys ih =>
    by_cases h : le x y = true <;> (simp [insertLe, h, ih]; try tauto)

theorem mem_sortByLe {α : Type} (le : α → α → Bool) (a : α) (l : List α) :
    a ∈ sortByLe le l ↔ a ∈ l := by
  induction l with
  | nil => simp [sortByLe]
  | cons x xs ih => simp [sortByLe, mem_insertLe, ih]

theorem length_insertLe {α : Type} (le : α → α → Bool) (x : α) (l : List α) :
    (insertLe le x l).length = l.length + 1 := by
  induction l with
  | nil => simp [insertLe]
  | cons y ys ih =>
    by_cases h : le x y = true <;> simp [insertLe, h, ih]

theorem length_sortByLe {α : Type} (le : α → α → Bool) (l : List α) :
    (sortByLe le l).length = l.length := by
  induction l with
  | nil => rfl
  | cons x xs ih => simp [sortByLe, length_insertLe, ih]

theorem chainLe_cons {α : Type} (le : α → α → Bool) (x : α) (l : List α)
    (hhead : ∀ y ∈ l.head?, le x y = true) (h : chainLe le l = true) :
    chainLe le (x :: l) = true := by
  cases l with
  | nil => rfl
  | cons y ys =>
    have := hhead y (by simp)
    simp [chainLe, this, h]

theorem chainLe_insertLe {α : Type} (le : α → α → Bool)
    (htot : ∀ a b, le a b = true ∨ le b a = true) (x : α) (l : List α)
    (h : chainLe le l = true) : chainLe le (insertLe le x l) = true := by
  induction l with
  | nil => rfl
  | cons y ys ih =>
    by_cases hxy : le x y = true
    · simpa [insertLe, hxy, chainLe] using h
    · have hyx : le y x = true := (htot x y).resolve_left hxy
      have hys : chainLe le ys = true := by
        cases ys with
        | nil => rfl
        | cons z zs => exact (Bool.and_elim_right (by simpa [chainLe] using h))
      have hrec := ih hys
      simp only [insertLe, hxy, if_false]
      apply chainLe_cons le y _ _ hrec
      intro z hz
      cases ys with
      | nil =>
        simp [insertLe] at hz
        subst hz; exact hyx
      | cons w ws =>
        have hyw : le y w = true := Bool.and_elim_left (by simpa [chainLe] using h)
        by_cases hxw : le x w = true
        · simp [insertLe, hxw] at hz
          subst hz; exact hyx
        · simp [insertLe, hxw] at hz
          subst hz; exact hyw

theorem chainLe_sortByLe {α : Type} (le : α → α → Bool)
    (htot : ∀ a b, le a b = true ∨ le b a = true) (l : List α) :
    chainLe le (sortByLe le l) = true := by
  induction l with
  | nil => rfl
  | cons x xs ih => exact chainLe_insertLe le htot x _ ih

theorem chainLe_take {α : Type} (le : α → α → Bool) (l : List α)
    (h : chainLe le l = true) (n : ℕ) : chainLe le (l.take n) = true := by
  induction l generalizing n with
  | nil => simp [chainLe]
  | cons x xs ih =>
    cases n with
    | zero => rfl
    | succ m =>
      cases xs with
      | nil => cases m <;> rfl
      | cons y ys =>
        have hxy : le x y = true := Bool.and_elim_left (by simpa [chainLe] using h)
        have htail : chainLe le (y :: ys) = true :=
          Bool.and_elim_right (by simpa [chainLe] using h)
        have := ih htail m
        cases m with
        | zero => rfl
        | succ k =>
          simpa [List.take, chainLe, hxy] using this
theorem rate_limit_wait_ge_now (now last : ℚ) : now ≤ (rate_limit_wait now last).1 := by
  by_cases h : now - last < MIN_REQUEST_INTERVAL
  · simp [rate_limit_wait, h]; linarith
  · simp [rate_limit_wait, h]
theorem rate_limit_wait_ge_last (now last : ℚ) :
    last + MIN_REQUEST_INTERVAL ≤ (rate_limit_wait now last).1 := by
  by_cases h : now - last < MIN_REQUEST_INTERVAL
  · simp [rate_limit_wait, h]; linarith
  · simp [rate_limit_wait, h]; linarith
theorem rate_limit_wait_snd (now last : ℚ) :
    (rate_limit_wait now last).2 = (rate_limit_wait now last).1 := by
  by_cases h : now - last < MIN_REQUEST_INTERVAL
  · simp [rate_limit_wait, h]
  · simp [rate_limit_wait, h]
theorem run_acquires_ne_nil (t0 last : ℚ) (deltas : List ℚ) :
    run_acquires t0 last deltas ≠ [] := by
  cases deltas <;> simp [run_acquires]
theorem run_acquires_last_bound (deltas : List ℚ) :
    ∀ t0 last : ℚ, (∀ d ∈ deltas, 0 ≤ d) →
      ∃ c, (run_acquires t0 last deltas).getLast? = some c ∧
        t0 ≤ c ∧
        last + ((deltas.length : ℚ) + 1) * MIN_REQUEST_INTERVAL ≤ c ∧
        t0 + (deltas.length : ℚ) * MIN_REQUEST_INTERVAL ≤ c := by
  induction deltas with
  | nil =>
    intro t0 last _
    refine ⟨(rate_limit_wait t0 last).1, by simp [run_acquires], ?_, ?_, ?_⟩
    · exact rate_limit_wait_ge_now t0 last
    · have := rate_limit_wait_ge_last t0 last
      simp only [List.length_nil, Nat.cast_zero, zero_add, one_mul]
      linarith
    · have := rate_limit_wait_ge_now t0 last
      simp only [List.length_nil, Nat.cast_zero, zero_mul, add_zero]
      linarith
  | cons d rest ih =>
    intro t0 last hd
    have hd0 : 0 ≤ d := hd d (by simp)
    have hrest : ∀ x ∈ rest, 0 ≤ x := fun x hx => hd x (by simp [hx])
    obtain ⟨c, hlastc, hge, hbound, _⟩ :=
      ih ((rate_limit_wait t0 last).1 + d) (rate_limit_wait t0 last).2 hrest
    rw [rate_limit_wait_snd] at hbound
    have h1 := rate_limit_wait_ge_now t0 last
    have h2 := rate_limit_wait_ge_last t0 last
    have hlen : ((d :: rest).length : ℚ) = (rest.length : ℚ) + 1 := by
      push_cast [List.length_cons]; ring
    refine ⟨c, ?_, ?_, ?_, ?_⟩
    · rcases hr : run_acquires ((rate_limit_wait t0 last).1 + d) (rate_limit_wait t0 last).2 rest
        with _ | ⟨x, xs⟩
      · exact absurd hr (run_acquires_ne_nil _ _ _)
      · rw [hr] at hlastc
        simpa [run_acquires, hr, List.getLast?_cons_cons] using hlastc
    · linarith
    · rw [hlen]; nlinarith
    · rw [hlen]; nlinarith
/-- Claim C8: issuing `N` consecutive rate-limiter acquires takes total
wall-clock time at least `(N - 1)` times the minimum interval (here `N =
deltas.length + 1` and the bound is measured from the issue time of the
first call to the completion of the last); each acquire only delays, it
never rejects (the completion time is at least the issue time and the
function is total); the configured minimum interval is 1 second. -/
theorem spec_c8 :
    (∀ now last : ℚ, now ≤ (rate_limit_wait now last).1) ∧
    (∀ (t0 last : ℚ) (deltas : List ℚ), (∀ d ∈ deltas, 0 ≤ d) →
      ∃ c, (run_acquires t0 last deltas).getLast? = some c ∧
        (deltas.length : ℚ) * MIN_REQUEST_INTERVAL ≤ c - t0) ∧
    MIN_REQUEST_INTERVAL = 1 := by
  refine ⟨rate_limit_wait_ge_now, ?_, rfl⟩
  intro t0 last deltas h
  obtain ⟨c, hlastc, _, _, hrel⟩ := run_acquires_last_bound deltas t0 last h
  exact ⟨c, hlastc, by linarith⟩
/-- Witness for C8 at a concrete schedule: three acquires issued at time
10, then immediately after the first completes, then 2 seconds after the
second completes. -/
theorem spec_c8_witness :
    (10 : ℚ) ≤ (rate_limit_wait 10 0).1 ∧
    (∃ c, (run_acquires 10 0 [0, 2]).getLast? = some c ∧
      ((([0, 2] : List ℚ).length : ℚ) * MIN_REQUEST_INTERVAL ≤ c - 10)) :=
  ⟨spec_c8.1 10 0, spec_c8.2.1 10 0 [0, 2] (by intro d hd; fin_cases hd <;> norm_num)⟩
/-- Claim C6: `_get_jquants_token` returns the cached token whenever one
is cached (non-empty) and the clock is before its recorded expiry, without
performing the exchange; otherwise (with the refresh secret configured, as
it is by default) it performs the exchange and returns `none` when the
exchange fails with a non-200 status or an exception; a freshly obtained
token is stamped to expire 23 hours after issuance, one hour short of the
provider's stated 24-hour lifetime. -/
theorem spec_c6 :
    (∀ (cfg : Bool) (xchg : ExchangeOutcome) (now e : ℚ) (tok : String),
      tok ≠ "" → now < e →
      get_jquants_token cfg xchg now ⟨some tok, some e⟩ =
        (some tok, ⟨some tok, some e⟩, false)) ∧
    (∀ (xchg : ExchangeOutcome) (now : ℚ) (st : TokenSt),
      token_valid st now = false → (xchg = .httpErr ∨ xchg = .raisedExc) →
      get_jquants_token true xchg now st = (none, st, true)) ∧
    (∀ (now : ℚ) (st : TokenSt) (tok : Option String),
      token_valid st now = false →
      get_jquants_token true (.httpOk tok) now st =
        (tok, ⟨tok, some (now + JQUANTS_TOKEN_TTL)⟩, true)) ∧
    JQUANTS_TOKEN_TTL = 24 * 3600 - 3600 := by
  refine ⟨?_, ?_, ?_, by norm_num [JQUANTS_TOKEN_TTL]⟩
  · intro cfg xchg now e tok htok hlt
    have hv : token_valid ⟨some tok, some e⟩ now = true := by
      simp [token_valid, htok, hlt]
    simp [get_jquants_token, hv]
  · intro xchg now st hv hfail
    rcases hfail with h | h <;> subst h <;> simp [get_jquants_token, hv]
  · intro now st tok hv
    simp [get_jquants_token, hv]
/-- Witness for C6: a cached-token hit, a failed exchange, and a
successful exchange at concrete inputs. -/
theorem spec_c6_witness :
    get_jquants_token true ExchangeOutcome.httpErr 100 ⟨some "tokA", some 200⟩ =
      (some "tokA", ⟨some "tokA", some 200⟩, false) ∧
    get_jquants_token true ExchangeOutcome.httpErr 100 ⟨none, none⟩ = (none, ⟨none, none⟩, true) ∧
    get_jquants_token true (ExchangeOutcome.httpOk (some "tokB")) 100 ⟨none, none⟩ =
      (some "tokB", ⟨some "tokB", some (100 + JQUANTS_TOKEN_TTL)⟩, true) :=
  ⟨spec_c6.1 true ExchangeOutcome.httpErr 100 200 "tokA" (by decide) (by norm_num),
   spec_c6.2.1 ExchangeOutcome.httpErr 100 ⟨none, none⟩ (by decide) (Or.inl rfl),
   spec_c6.2.2.1 100 ⟨none, none⟩ (some "tokB") (by decide)⟩
/-- Claim C10: a search string whose normalization is empty (whitespace
only, including full-width spaces, or consisting only of stripped
corporate-suffix tokens) makes `get_listed_stocks` return the whole
refreshed directory snapshot, not an empty list. -/
theorem spec_c10 (env : Env) (now : ℚ) (st : St) (search : String)
    (h : normalize_query search = "") :
    (get_listed_stocks env now st (some search)).1 =
      (listed_refresh env now st).listedCache := by
  by_cases hs : search = ""
  · simp [get_listed_stocks, hs]
  · simp [get_listed_stocks, hs, h]
/-- Witness for C10: a full-width-space query and a suffix-token query
both normalise to the empty string and return the whole snapshot. -/
theorem spec_c10_witness :
    normalize_query "　 Ltd." = "" ∧
    normalize_query "Holdings" = "" ∧
    (get_listed_stocks listedEnv 0 {} (some "　 Ltd.")).1 = [listedToyota, listedIsuzu] ∧
    (get_listed_stocks listedEnv 0 {} (some "Holdings")).1 = [listedToyota, listedIsuzu] := by
  refine ⟨by decide, by decide, ?_, ?_⟩
  · rw [spec_c10 listedEnv 0 {} "　 Ltd." (by decide)]
    decide
  · rw [spec_c10 listedEnv 0 {} "Holdings" (by decide)]
    decide
/-- Counterexample to claim C9: over a directory holding an entry whose
stored name is native-script only (トヨタ自動車) and an entry with the
transliterated name "Toyota Motor", the Latin query "Toyota" and the
native query "トヨタ" match different entries (the Latin query never
reaches the native-only entry), and "Toyota Inc" (without the dot the
strip list requires) matches strictly fewer entries than "Toyota". -/
theorem spec_c9_counterexample :
    (get_listed_stocks listedEnv 0 {} (some "Toyota")).1 = [listedIsuzu] ∧
    (get_listed_stocks listedEnv 0 {} (some "トヨタ")).1 = [listedToyota] ∧
    (get_listed_stocks listedEnv 0 {} (some "Toyota Inc")).1 = [] := by
  refine ⟨by decide, by decide, by decide⟩
theorem any_aab_eq_bab {α : Type} (p : α → Bool) (a b : α) :
    [a, a, b].any p = [b, a, b].any p := by
  simp only [List.any_cons, List.any_nil]
  cases hpa : p a <;> cases hpb : p b <;> simp
/-- Claim C9 (amended): script folding applies only between the two kana
scripts — the katakana query トヨタ and the hiragana query とよた match
exactly the same entries, while a Latin-script query is not folded into
kana and reaches only the symbol and transliterated-name fields; suffix
stripping removes the fixed token list, whose English members carry a
trailing dot, so "Toyota Inc." (with the dot) matches exactly the same
entries as "Toyota"; and a candidate matches iff some folded variant of
the normalized query is a substring of its normalized symbol, native
name, or transliterated name. -/
theorem spec_c9_amended :
    (∀ item : ListedItem, matches_search "トヨタ" item = matches_search "とよた" item) ∧
    (∀ item : ListedItem, matches_search "Toyota Inc." item = matches_search "Toyota" item) ∧
    (∀ (env : Env) (now : ℚ) (st : St) (srch : String),
      srch ≠ "" → normalize_query srch ≠ "" →
      (get_listed_stocks env now st (some srch)).1 =
        (listed_refresh env now st).listedCache.filter
          (listed_query_match (normalize_query srch))) ∧
    (∀ (query : String) (item : ListedItem),
      listed_query_match query item = true ↔
        ∃ q ∈ query_variants query,
          (containsStr q (normalize_query item.symbol) = true ∨
           containsStr q (normalize_query item.name) = true ∨
           containsStr q (normalize_query item.nameEn) = true)) := by
  refine ⟨?_, ?_, ?_, ?_⟩
  · intro item
    unfold matches_search
    have e1 : normalize_query "トヨタ" = "トヨタ" := by decide
    have e2 : normalize_query "とよた" = "とよた" := by decide
    rw [e1, e2]
    unfold listed_query_match
    have v1 : query_variants "トヨタ" = ["トヨタ", "トヨタ", "とよた"] := by decide
    have v2 : query_variants "とよた" = ["とよた", "トヨタ", "とよた"] := by decide
    rw [v1, v2, any_aab_eq_bab, any_aab_eq_bab, any_aab_eq_bab]
  · intro item
    unfold matches_search
    have e : normalize_query "Toyota Inc." = normalize_query "Toyota" := by decide
    rw [e]
  · intro env now st srch hs hq
    simp [get_listed_stocks, hs, hq]
  · intro query item
    simp only [listed_query_match, Bool.or_eq_true, List.any_eq_true]
    constructor
    · rintro ((⟨q, hq, hf⟩ | ⟨q, hq, hf⟩) | ⟨q, hq, hf⟩)
      exacts [⟨q, hq, Or.inl hf⟩, ⟨q, hq, Or.inr (Or.inl hf)⟩, ⟨q, hq, Or.inr (Or.inr hf)⟩]
    · rintro ⟨q, hq, hf | hf | hf⟩
      exacts [Or.inl (Or.inl ⟨q, hq, hf⟩), Or.inl (Or.inr ⟨q, hq, hf⟩), Or.inr ⟨q, hq, hf⟩]
/-- Witness for the amended C9: the filter characterization applied to a
concrete query over the fixture directory. -/
theorem spec_c9_amended_witness :
    (get_listed_stocks listedEnv 0 {} (some "トヨタ")).1 =
      (listed_refresh listedEnv 0 {}).listedCache.filter
        (listed_query_match (normalize_query "トヨタ")) :=
  spec_c9_amended.2.2.1 listedEnv 0 {} "トヨタ" (by decide) (by decide)
/-! ### C3: full metadata endpoint usage -/
/-- Counterexample to claim C3: even though the fast metadata endpoint
already supplies a price, both `_fetch_yfinance_data` and
`_try_yahoo_finance_detailed` still issue the full `info` request (the
source queries `ticker.info` unconditionally, for the display name and
valuation fields). -/
theorem spec_c3_counterexample :
    qTruthy (pyOr fastC3.lastPriceU fastC3.lastPriceC) = true ∧
    envC3.fastResp "7203.T" = FetchOutcome.got fastC3 ∧
    Ev.infoQ "7203.T" ∈ (fetch_yfinance_data envC3 "7203").2 ∧
    Ev.infoQ "7203.T" ∈ (try_yahoo_finance_detailed envC3 "7203" "7203.T").2 :=
  ⟨by decide, rfl, by decide, by decide⟩
theorem infoQ_mem_yf_simple_body (env : Env) (cleaned yfSym : String) (f : FastInfo) :
    Ev.infoQ yfSym ∈ (yf_simple_body env cleaned yfSym f).2 := by
  simp only [yf_simple_body]
  split
  · simp
  · simp
theorem infoQ_mem_yf_detailed_body (env : Env) (symbol yfSym : String)
    (f : FastInfo) (i : YInfo) :
    Ev.infoQ yfSym ∈ (yf_detailed_body env symbol yfSym f i).2 := by
  simp only [yf_detailed_body]
  split
  · simp
  · split
    · simp
    · simp
theorem infoQ_mem_yf_detailed_with_fast (env : Env) (symbol yfSym : String) (f : FastInfo) :
    Ev.infoQ yfSym ∈ (yf_detailed_with_fast env symbol yfSym f).2 := by
  unfold yf_detailed_with_fast
  split
  · simp
  · exact infoQ_mem_yf_detailed_body ..
  · exact infoQ_mem_yf_detailed_body ..
/-- Claim C3 (amended): in the primary-provider attempt the full metadata
endpoint is queried unconditionally — whenever the fast-endpoint read does
not itself fail with a detected rate-limit error — regardless of whether
the fast endpoint already supplied a price; this holds for both the
simple and the detailed variant. -/
theorem spec_c3_amended (env : Env) (s ys : String) :
    (isRateLimitRaise (env.fastResp (normalize_symbol s)) = false →
      Ev.infoQ (normalize_symbol s) ∈ (fetch_yfinance_data env s).2) ∧
    (isRateLimitRaise (env.fastResp ys) = false →
      Ev.infoQ ys ∈ (try_yahoo_finance_detailed env s ys).2) := by
  constructor
  · intro h
    unfold fetch_yfinance_data
    rcases hf : env.fastResp (normalize_symbol s) with b | f
    · cases b
      · simp only [hf]
        exact infoQ_mem_yf_simple_body ..
      · rw [hf] at h
        simp [isRateLimitRaise] at h
    · simp only [hf]
      exact infoQ_mem_yf_simple_body ..
  · intro h
    unfold try_yahoo_finance_detailed
    rcases hf : env.fastResp ys with b | f
    · cases b
      · simp only [hf]
        exact infoQ_mem_yf_detailed_with_fast ..
      · rw [hf] at h
        simp [isRateLimitRaise] at h
    · simp only [hf]
      exact infoQ_mem_yf_detailed_with_fast ..
/-- Witness for the amended C3 at the concrete environment of the
counterexample. -/
theorem spec_c3_amended_witness :
    Ev.infoQ (normalize_symbol "7203") ∈ (fetch_yfinance_data envC3 "7203").2 ∧
    Ev.infoQ "7203.T" ∈ (try_yahoo_finance_detailed envC3 "7203" "7203.T").2 :=
  ⟨(spec_c3_amended envC3 "7203" "7203.T").1 (by decide),
   (spec_c3_amended envC3 "7203" "7203.T").2 (by decide)⟩
/-! ### C5: popular-scope rankings -/
theorem rankDesc_total : ∀ a b, rankDesc a b = true ∨ rankDesc b a = true := by
  intro a b
  rcases le_total b.changePct a.changePct with h | h
  · left; simpa [rankDesc] using h
  · right; simpa [rankDesc] using h
theorem rankAsc_total : ∀ a b, rankAsc a b = true ∨ rankAsc b a = true := by
  intro a b
  rcases le_total a.changePct b.changePct with h | h
  · left; simpa [rankAsc] using h
  · right; simpa [rankAsc] using h
theorem ranking_entries_of_nil (syms : List String) : ranking_entries [] syms = [] :=
  List.filterMap_eq_nil_iff.mpr (fun _ _ => rfl)
unseal Rat.mul Rat.sub Rat.add Rat.inv in
/-- Claim C5: in popular scope `get_rankings` builds one entry per
configured symbol present in the fetched mapping, sorts descending by
change percentage for gainers and ascending for losers, truncates both to
the requested limit; over five symbols with change percentages
[5, -3, 0, 10, -8] and limit 3 it returns gainers [10, 5, 0] and losers
[-8, -3, 0]; and it returns the explicit unavailable failure iff zero
entries have usable data. -/
theorem spec_c5 :
    ((get_stock_rankings env5 0 {} 3 "popular" syms5).1 =
      RankingsResult.ok [entD, entA, entC] [entE, entB, entC] ∧
     [entD, entA, entC].map (·.changePct) = [10, 5, 0] ∧
     [entE, entB, entC].map (·.changePct) = [-8, -3, 0]) ∧
    (∀ (env : Env) (now : ℚ) (st : St) (limit : ℕ) (syms : List String)
       (g l : List RankingEntry),
      (get_stock_rankings env now st limit "popular" syms).1 = RankingsResult.ok g l →
        g = (sortByLe rankDesc
              (ranking_entries (fetch_stock_data env now st syms).1 syms)).take limit ∧
        l = (sortByLe rankAsc
              (ranking_entries (fetch_stock_data env now st syms).1 syms)).take limit ∧
        chainLe rankDesc g = true ∧ chainLe rankAsc l = true ∧
        g.length ≤ limit ∧ l.length ≤ limit) ∧
    (∀ (env : Env) (now : ℚ) (st : St) (limit : ℕ) (syms : List String),
      (get_stock_rankings env now st limit "popular" syms).1 = RankingsResult.unavailable ↔
        ranking_entries (fetch_stock_data env now st syms).1 syms = []) := by
  refine ⟨⟨by decide, by decide, by decide⟩, ?_, ?_⟩
  · intro env now st limit syms g l h
    simp only [get_stock_rankings] at h
    rw [if_neg (by decide : ¬ ("popular" : String) = "all")] at h
    split at h
    · simp at h
    · split at h
      · simp at h
      · simp only [RankingsResult.ok.injEq] at h
        obtain ⟨hg, hl⟩ := h
        subst hg; subst hl
        refine ⟨rfl, rfl, ?_, ?_, ?_, ?_⟩
        · exact chainLe_take _ _ (chainLe_sortByLe _ rankDesc_total _) _
        · exact chainLe_take _ _ (chainLe_sortByLe _ rankAsc_total _) _
        · exact List.length_take_le _ _
        · exact List.length_take_le _ _
  · intro env now st limit syms
    constructor
    · intro h
      simp only [get_stock_rankings] at h
      rw [if_neg (by decide : ¬ ("popular" : String) = "all")] at h
      split at h
      · rename_i hemp
        rw [List.isEmpty_iff] at hemp
        rw [hemp]
        exact ranking_entries_of_nil syms
      · split at h
        · rename_i hemp
          rwa [List.isEmpty_iff] at hemp
        · simp at h
    · intro h
      simp only [get_stock_rankings]
      rw [if_neg (by decide : ¬ ("popular" : String) = "all")]
      split
      · rfl
      · rw [if_pos (List.isEmpty_iff.mpr h)]
/-- Witness for C5: the general sortedness and truncation facts applied
to the five-symbol fixture. -/
theorem spec_c5_witness :
    [entD, entA, entC] =
      (sortByLe rankDesc
        (ranking_entries (fetch_stock_data env5 0 {} syms5).1 syms5)).take 3 ∧
    [entE, entB, entC] =
      (sortByLe rankAsc
        (ranking_entries (fetch_stock_data env5 0 {} syms5).1 syms5)).take 3 ∧
    chainLe rankDesc [entD, entA, entC] = true ∧
    chainLe rankAsc [entE, entB, entC] = true ∧
    ([entD, entA, entC] : List RankingEntry).length ≤ 3 ∧
    ([entE, entB, entC] : List RankingEntry).length ≤ 3 :=
  spec_c5.2.1 env5 0 {} 3 syms5 [entD, entA, entC] [entE, entB, entC] spec_c5.1.1
/-! ### C2: per-symbol failures are absorbed -/
theorem length_dinsert (k : String) (v : QuoteRecord) (l : List (String × QuoteRecord)) :
    (dinsert k v l).length ≤ l.length + 1 := by
  induction l with
  | nil => simp [dinsert]
  | cons p rest ih =>
    by_cases h : p.1 = k
    · simp [dinsert, h]
    · simp only [dinsert, if_neg h, List.length_cons]
      omega
theorem fetch_one_mock_length (results : List (String × QuoteRecord)) (st : St)
    (cleaned : String) (tr : List Ev) :
    ((fetch_one_mock results st cleaned tr).1).length ≤ results.length + 1 := by
  simp [fetch_one_mock, get_mock_data]
theorem fetch_one_jq_length (env : Env) (now : ℚ) (results : List (String × QuoteRecord))
    (st : St) (cleaned : String) (yfTr : List Ev) :
    ((fetch_one_jq env now results st cleaned yfTr).1).length ≤ results.length + 1 := by
  simp only [fetch_one_jq]
  rcases h : env.jqDaily cleaned with _ | j
  · exact fetch_one_mock_length ..
  · by_cases hp : j.price.isSome
    · simp only [hp, if_true]
      exact length_dinsert ..
    · simp only [hp, if_false]
      exact fetch_one_mock_length ..
theorem fetch_one_length (env : Env) (now : ℚ) (results : List (String × QuoteRecord))
    (st : St) (s : String) :
    ((fetch_one env now results st s).1).length ≤ results.length + 1 := by
  simp only [fetch_one]
  rcases h : get_cached_data st now (clean_symbol s) with _ | c
  · rcases hy : (fetch_yfinance_data env (clean_symbol s)).1 with _ | y
    · exact fetch_one_jq_length ..
    · by_cases hp : y.price.isSome
      · simp only [hp, if_true]
        exact length_dinsert ..
      · simp only [hp, if_false]
        exact fetch_one_jq_length ..
  · exact length_dinsert ..
theorem fetch_fold_length (env : Env) (now : ℚ) :
    ∀ (symbols : List String) (acc : List (String × QuoteRecord)) (st : St) (tr : List Ev),
      ((symbols.foldl
        (fun acc2 symbol =>
          let step := fetch_one env now acc2.1 acc2.2.1 symbol
          (step.1, step.2.1, acc2.2.2 ++ step.2.2)) (acc, st, tr)).1).length ≤
        acc.length + symbols.length := by
  intro symbols
  induction symbols with
  | nil => intro acc st tr; simp
  | cons s rest ih =>
    intro acc st tr
    simp only [List.foldl_cons]
    refine le_trans
      (ih (fetch_one env now acc st s).1 (fetch_one env now acc st s).2.1
        (tr ++ (fetch_one env now acc st s).2.2)) ?_
    have h1 := fetch_one_length env now acc st s
    simp only [List.length_cons]
    omega
/-- Claim C2: `fetch_stock_data` absorbs all per-symbol failures — the
embedding is a total function (every provider branch is explicit, with no
exceptional exit), the result mapping has at most one entry per requested
symbol, and a symbol whose cache lookup misses, whose primary and
secondary attempts both fail, and which has no static-fallback entry is
simply absent from the result. -/
theorem spec_c2 :
    (∀ (env : Env) (now : ℚ) (st : St) (symbols : List String),
      ((fetch_stock_data env now st symbols).1).length ≤ symbols.length) ∧
    (∀ (env : Env) (now : ℚ) (st : St) (s : String),
      get_cached_data st now (clean_symbol s) = none →
      (fetch_yfinance_data env (clean_symbol s)).1 = none →
      (env.jqDaily (clean_symbol s) = none ∨
        ∀ j, env.jqDaily (clean_symbol s) = some j → j.price = none) →
      (fetch_stock_data env now st [s]).1 = []) := by
  constructor
  · intro env now st symbols
    have := fetch_fold_length env now symbols [] st []
    simpa [fetch_stock_data] using this
  · intro env now st s hc hy hjq
    simp only [fetch_stock_data, List.foldl_cons, List.foldl_nil]
    simp only [fetch_one]
    rw [hc, hy]
    simp only [fetch_one_jq]
    rcases hj : env.jqDaily (clean_symbol s) with _ | j
    · simp [fetch_one_mock, get_mock_data]
    · rcases hjq with h | h
      · rw [h] at hj; cases hj
      · have hp : j.price = none := h j hj
        simp [hp, fetch_one_mock, get_mock_data]
/-- Witness for C2: with all providers failing, fetching a symbol twice
stays within the size bound and a single-symbol fetch returns the empty
mapping. -/
theorem spec_c2_witness :
    ((fetch_stock_data envFail 0 {} ["7203", "7203"]).1).length ≤ 2 ∧
    (fetch_stock_data envFail 0 {} ["7203"]).1 = [] :=
  ⟨spec_c2.1 envFail 0 {} ["7203", "7203"],
   spec_c2.2 envFail 0 {} "7203" (by decide) (by decide) (Or.inl rfl)⟩
/-! ### C1: strict fallback order of the provider chain -/
theorem yf_simple_body_price (env : Env) (cleaned yfSym : String) (f : FastInfo) :
    ∀ y tr, yf_simple_body env cleaned yfSym f = (some y, tr) → y.price.isSome = true := by
  intro y tr h
  simp only [yf_simple_body] at h
  split at h
  · simp at h
  · rename_i hpn
    rw [Prod.mk.injEq] at h
    obtain ⟨h1, _⟩ := h
    rw [Option.some.injEq] at h1
    subst h1
    exact Option.isSome_iff_ne_none.mpr
      (fun he => hpn ((congrArg Option.isNone he).trans rfl))
theorem fetch_yfinance_data_price (env : Env) (s : String) :
    ∀ y tr, fetch_yfinance_data env s = (some y, tr) → y.price.isSome = true := by
  intro y tr h
  simp only [fetch_yfinance_data] at h
  split at h
  · simp at h
  · exact yf_simple_body_price _ _ _ _ y tr h
  · exact yf_simple_body_price _ _ _ _ y tr h
/-- Claim C1: for every requested symbol the chain follows the strict
priority order cache, then Yahoo Finance, then J-Quants, then static
fallback, short-circuiting on the first success; a live-provider result
is accepted only when its price is non-null (the Yahoo adapter never
returns a priceless record, and the J-Quants branch checks the price
before accepting); and on each successful live step the record is stored
in the quote cache and keyed into the result under the canonical symbol.
The event traces in each case exhibit the order in which the steps were
attempted. -/
theorem spec_c1 (env : Env) (now : ℚ) (st : St) (s : String) :
    (∀ r, get_cached_data st now (clean_symbol s) = some r →
      fetch_stock_data env now st [s] =
        ([(clean_symbol s, r)], st, [Ev.cacheHit (clean_symbol s)])) ∧
    (∀ y ytr, fetch_yfinance_data env (clean_symbol s) = (some y, ytr) →
      y.price.isSome = true) ∧
    (∀ y ytr, get_cached_data st now (clean_symbol s) = none →
      fetch_yfinance_data env (clean_symbol s) = (some y, ytr) →
      fetch_stock_data env now st [s] =
        ([(clean_symbol s, y)], set_cache st now (clean_symbol s) y, ytr)) ∧
    (∀ j ytr, get_cached_data st now (clean_symbol s) = none →
      fetch_yfinance_data env (clean_symbol s) = (none, ytr) →
      env.jqDaily (clean_symbol s) = some j → j.price.isSome = true →
      fetch_stock_data env now st [s] =
        ([(clean_symbol s, jq_decorate env (clean_symbol s) j)],
          set_cache st now (clean_symbol s) (jq_decorate env (clean_symbol s) j),
          ytr ++ [Ev.jqDailyQ (clean_symbol s), Ev.jqListedQ (clean_symbol s)])) ∧
    (∀ ytr, get_cached_data st now (clean_symbol s) = none →
      fetch_yfinance_data env (clean_symbol s) = (none, ytr) →
      (env.jqDaily (clean_symbol s) = none ∨
        ∀ j, env.jqDaily (clean_symbol s) = some j → j.price = none) →
      fetch_stock_data env now st [s] =
        ([], st, ytr ++ [Ev.jqDailyQ (clean_symbol s), Ev.mockQ (clean_symbol s)])) := by
  refine ⟨?_, fetch_yfinance_data_price env (clean_symbol s), ?_, ?_, ?_⟩
  · intro r hr
    simp only [fetch_stock_data, List.foldl_cons, List.foldl_nil, fetch_one]
    rw [hr]
    rfl
  · intro y ytr hc hy
    have hp : y.price.isSome = true := fetch_yfinance_data_price env (clean_symbol s) y ytr hy
    simp only [fetch_stock_data, List.foldl_cons, List.foldl_nil, fetch_one]
    rw [hc, hy]
    simp only [hp, if_true]
    rfl
  · intro j ytr hc hy hj hp
    simp only [fetch_stock_data, List.foldl_cons, List.foldl_nil, fetch_one]
    rw [hc, hy]
    simp only [fetch_one_jq]
    rw [hj]
    simp only [hp, if_true]
    simp [dinsert]
  · intro ytr hc hy hjq
    simp only [fetch_stock_data, List.foldl_cons, List.foldl_nil, fetch_one]
    rw [hc, hy]
    simp only [fetch_one_jq]
    rcases hj : env.jqDaily (clean_symbol s) with _ | j
    · simp [fetch_one_mock, get_mock_data]
    · rcases hjq with h | h
      · rw [h] at hj; cases hj
      · have hpn : j.price = none := h j hj
        simp [hpn, fetch_one_mock, get_mock_data]
unseal Rat.mul Rat.sub Rat.add Rat.inv in
/-- Witness for C1: the four chain outcomes (cache hit, primary success,
secondary success, total miss) at concrete inputs. -/
theorem spec_c1_witness :
    fetch_stock_data env5 0 stHit ["7203"] =
      ([(clean_symbol "7203", recC)], stHit, [Ev.cacheHit (clean_symbol "7203")]) ∧
    fetch_stock_data env5 0 {} ["ALFA"] =
      ([(clean_symbol "ALFA", recA)], set_cache {} 0 (clean_symbol "ALFA") recA,
        [Ev.fastInfoQ "ALFA", Ev.infoQ "ALFA"]) ∧
    fetch_stock_data envJ 0 {} ["7203"] =
      ([(clean_symbol "7203", jq_decorate envJ (clean_symbol "7203") jqRec)],
        set_cache {} 0 (clean_symbol "7203") (jq_decorate envJ (clean_symbol "7203") jqRec),
        [Ev.fastInfoQ "7203.T", Ev.infoQ "7203.T"] ++
          [Ev.jqDailyQ (clean_symbol "7203"), Ev.jqListedQ (clean_symbol "7203")]) ∧
    fetch_stock_data envFail 0 {} ["7203"] =
      ([], {}, [Ev.fastInfoQ "7203.T", Ev.infoQ "7203.T"] ++
        [Ev.jqDailyQ (clean_symbol "7203"), Ev.mockQ (clean_symbol "7203")]) :=
  ⟨(spec_c1 env5 0 stHit "7203").1 recC (by decide),
   (spec_c1 env5 0 ({} : St) "ALFA").2.2.1 recA [Ev.fastInfoQ "ALFA", Ev.infoQ "ALFA"]
     (by decide) (by decide),
   (spec_c1 envJ 0 ({} : St) "7203").2.2.2.1 jqRec [Ev.fastInfoQ "7203.T", Ev.infoQ "7203.T"]
     (by decide) (by decide) rfl (by decide),
   (spec_c1 envFail 0 ({} : St) "7203").2.2.2.2 [Ev.fastInfoQ "7203.T", Ev.infoQ "7203.T"]
     (by decide) (by decide) (Or.inl rfl)⟩
/-! ### C7: key canonicalization -/
unseal Rat.mul Rat.sub Rat.add Rat.inv in
/-- Counterexample to claim C7: in full-universe mode the ranking entry
symbol is only whitespace-trimmed — the provider code " 7203.t " yields
the entry symbol "7203.t", which is not in canonical form (its canonical
form is "7203"). -/
theorem spec_c7_counterexample :
    (get_stock_rankings envC7 0 {} 20 "all" DEFAULT_POPULAR_SYMBOLS).1 =
      RankingsResult.ok [entC7] [entC7] ∧
    entC7.symbol = "7203.t" ∧
    clean_symbol entC7.symbol ≠ entC7.symbol :=
  ⟨by decide, rfl, by decide⟩
theorem mem_dinsert_key (p : String × QuoteRecord) (k : String) (v : QuoteRecord)
    (l : List (String × QuoteRecord)) :
    p ∈ dinsert k v l → p.1 = k ∨ ∃ q ∈ l, p.1 = q.1 := by
  induction l with
  | nil =>
    intro h
    simp only [dinsert, List.mem_singleton] at h
    exact Or.inl (by rw [h])
  | cons q rest ih =>
    obtain ⟨qk, qv⟩ := q
    intro h
    by_cases hk : qk = k
    · simp only [dinsert, if_pos hk] at h
      rcases List.mem_cons.mp h with h1 | h1
      · exact Or.inl (by rw [h1])
      · exact Or.inr ⟨p, List.mem_cons_of_mem _ h1, rfl⟩
    · simp only [dinsert, if_neg hk] at h
      rcases List.mem_cons.mp h with h1 | h1
      · exact Or.inr ⟨(qk, qv), List.mem_cons_self _ _, by rw [h1]⟩
      · rcases ih h1 with h2 | ⟨q', hq', he⟩
        · exact Or.inl h2
        · exact Or.inr ⟨q', List.mem_cons_of_mem _ hq', he⟩
theorem fetch_one_mock_mem (results : List (String × QuoteRecord)) (st : St)
    (cleaned : String) (tr : List Ev) (p : String × QuoteRecord) :
    p ∈ (fetch_one_mock results st cleaned tr).1 → p ∈ results := by
  simp [fetch_one_mock, get_mock_data]
theorem fetch_one_jq_key (env : Env) (now : ℚ) (results : List (String × QuoteRecord))
    (st : St) (cleaned : String) (yfTr : List Ev) (p : String × QuoteRecord) :
    p ∈ (fetch_one_jq env now results st cleaned yfTr).1 →
      p.1 = cleaned ∨ ∃ q ∈ results, p.1 = q.1 := by
  simp only [fetch_one_jq]
  rcases h : env.jqDaily cleaned with _ | j
  · intro hm
    exact Or.inr ⟨p, fetch_one_mock_mem _ _ _ _ _ hm, rfl⟩
  · by_cases hp : j.price.isSome
    · simp only [hp, if_true]
      exact mem_dinsert_key p cleaned (jq_decorate env cleaned j) results
    · simp only [hp, if_false]
      intro hm
      exact Or.inr ⟨p, fetch_one_mock_mem _ _ _ _ _ hm, rfl⟩
theorem fetch_one_key (env : Env) (now : ℚ) (results : List (String × QuoteRecord))
    (st : St) (s : String) (p : String × QuoteRecord) :
    p ∈ (fetch_one env now results st s).1 →
      p.1 = clean_symbol s ∨ ∃ q ∈ results, p.1 = q.1 := by
  simp only [fetch_one]
  rcases h : get_cached_data st now (clean_symbol s) with _ | c
  · rcases hy : (fetch_yfinance_data env (clean_symbol s)).1 with _ | y
    · exact fetch_one_jq_key env now results st (clean_symbol s)
        (fetch_yfinance_data env (clean_symbol s)).2 p
    · by_cases hp : y.price.isSome
      · simp only [hp, if_true]
        exact mem_dinsert_key p (clean_symbol s) y results
      · simp only [hp, if_false]
        exact fetch_one_jq_key env now results st (clean_symbol s)
          (fetch_yfinance_data env (clean_symbol s)).2 p
  · exact mem_dinsert_key p (clean_symbol s) c results
theorem fetch_fold_key (env : Env) (now : ℚ) :
    ∀ (symbols : List String) (acc : List (String × QuoteRecord)) (st : St) (tr : List Ev)
      (p : String × QuoteRecord),
      p ∈ ((symbols.foldl
        (fun acc2 symbol =>
          let step := fetch_one env now acc2.1 acc2.2.1 symbol
          (step.1, step.2.1, acc2.2.2 ++ step.2.2)) (acc, st, tr)).1) →
      (∃ q ∈ acc, p.1 = q.1) ∨ ∃ u ∈ symbols, p.1 = clean_symbol u := by
  intro symbols
  induction symbols with
  | nil =>
    intro acc st tr p h
    exact Or.inl ⟨p, h, rfl⟩
  | cons s rest ih =>
    intro acc st tr p h
    rcases ih (fetch_one env now acc st s).1 (fetch_one env now acc st s).2.1
        (tr ++ (fetch_one env now acc st s).2.2) p h with ⟨q, hq, he⟩ | ⟨u, hu, he⟩
    · rcases fetch_one_key env now acc st s q hq with h1 | ⟨q2, hq2, he2⟩
      · exact Or.inr ⟨s, List.mem_cons_self _ _, he.trans h1⟩
      · exact Or.inl ⟨q2, hq2, he.trans he2⟩
    · exact Or.inr ⟨u, List.mem_cons_of_mem _ hu, he⟩
theorem mem_cacheUpsert_key (p : String × QuoteRecord × ℚ) (k : String)
    (r : QuoteRecord) (e : ℚ) (l : List (String × QuoteRecord × ℚ)) :
    p ∈ cacheUpsert k r e l → p.1 = k ∨ ∃ q ∈ l, p.1 = q.1 := by
  induction l with
  | nil =>
    intro h
    simp only [cacheUpsert, List.mem_singleton] at h
    exact Or.inl (by rw [h])
  | cons q rest ih =>
    obtain ⟨qk, qv⟩ := q
    intro h
    by_cases hk : qk = k
    · simp only [cacheUpsert, if_pos hk] at h
      rcases List.mem_cons.mp h with h1 | h1
      · exact Or.inl (by rw [h1])
      · exact Or.inr ⟨p, List.mem_cons_of_mem _ h1, rfl⟩
    · simp only [cacheUpsert, if_neg hk] at h
      rcases List.mem_cons.mp h with h1 | h1
      · exact Or.inr ⟨(qk, qv), List.mem_cons_self _ _, by rw [h1]⟩
      · rcases ih h1 with h2 | ⟨q', hq', he⟩
        · exact Or.inl h2
        · exact Or.inr ⟨q', List.mem_cons_of_mem _ hq', he⟩
theorem set_cache_canon (st : St) (now : ℚ) (sym : String) (r : QuoteRecord)
    (hinv : CacheCanon st) : CacheCanon (set_cache st now sym r) := by
  intro q hq
  rcases mem_cacheUpsert_key q (clean_symbol sym) r (now + CACHE_DURATION)
      st.stockCache hq with h | ⟨q2, hq2, he⟩
  · exact ⟨sym, h⟩
  · rcases hinv q2 hq2 with ⟨u, hu⟩
    exact ⟨u, he.trans hu⟩
theorem fetch_one_jq_canon (env : Env) (now : ℚ) (results : List (String × QuoteRecord))
    (st : St) (cleaned : String) (yfTr : List Ev) (hinv : CacheCanon st) :
    CacheCanon (fetch_one_jq env now results st cleaned yfTr).2.1 := by
  simp only [fetch_one_jq]
  rcases h : env.jqDaily cleaned with _ | j
  · simpa [fetch_one_mock, get_mock_data] using hinv
  · by_cases hp : j.price.isSome
    · simp only [hp, if_true]
      exact set_cache_canon st now cleaned (jq_decorate env cleaned j) hinv
    · simp only [hp, if_false]
      simpa [fetch_one_mock, get_mock_data] using hinv
theorem fetch_one_canon (env : Env) (now : ℚ) (results : List (String × QuoteRecord))
    (st : St) (s : String) (hinv : CacheCanon st) :
    CacheCanon (fetch_one env now results st s).2.1 := by
  simp only [fetch_one]
  rcases h : get_cached_data st now (clean_symbol s) with _ | c
  · rcases hy : (fetch_yfinance_data env (clean_symbol s)).1 with _ | y
    · exact fetch_one_jq_canon env now results st (clean_symbol s)
        (fetch_yfinance_data env (clean_symbol s)).2 hinv
    · by_cases hp : y.price.isSome
      · simp only [hp, if_true]
        exact set_cache_canon st now (clean_symbol s) y hinv
      · simp only [hp, if_false]
        exact fetch_one_jq_canon env now results st (clean_symbol s)
          (fetch_yfinance_data env (clean_symbol s)).2 hinv
  · exact hinv
theorem fetch_fold_canon (env : Env) (now : ℚ) :
    ∀ (symbols : List String) (acc : List (String × QuoteRecord)) (st : St) (tr : List Ev),
      CacheCanon st →
      CacheCanon ((symbols.foldl
        (fun acc2 symbol =>
          let step := fetch_one env now acc2.1 acc2.2.1 symbol
          (step.1, step.2.1, acc2.2.2 ++ step.2.2)) (acc, st, tr)).2.1) := by
  intro symbols
  induction symbols with
  | nil => intro acc st tr hinv; exact hinv
  | cons s rest ih =>
    intro acc st tr hinv
    exact ih (fetch_one env now acc st s).1 (fetch_one env now acc st s).2.1
      (tr ++ (fetch_one env now acc st s).2.2) (fetch_one_canon env now acc st s hinv)
theorem fetch_detailed_jq_canon (env : Env) (now : ℚ) (st : St) (cleaned : String)
    (tr1 : List Ev) (hinv : CacheCanon st) :
    CacheCanon (fetch_detailed_jq env now st cleaned tr1).2.1 := by
  simp only [fetch_detailed_jq]
  rcases h : (try_jquants_detailed env cleaned).1 with _ | j
  · simpa [get_mock_data] using hinv
  · by_cases hp : j.price.isSome
    · simp only [hp, if_true]
      exact set_cache_canon st now cleaned _ hinv
    · simp only [hp, if_false]
      simpa [get_mock_data] using hinv
theorem fetch_detailed_rest_canon (env : Env) (now : ℚ) (st : St) (cleaned yfSym : String)
    (hinv : CacheCanon st) :
    CacheCanon (fetch_detailed_rest env now st cleaned yfSym).2.1 := by
  simp only [fetch_detailed_rest]
  rcases h : (try_yahoo_finance_detailed env cleaned yfSym).1 with _ | y
  · exact fetch_detailed_jq_canon env now st cleaned
      (try_yahoo_finance_detailed env cleaned yfSym).2 hinv
  · by_cases hp : y.price.isSome
    · simp only [hp, if_true]
      exact set_cache_canon st now cleaned _ hinv
    · simp only [hp, if_false]
      exact fetch_detailed_jq_canon env now st cleaned
        (try_yahoo_finance_detailed env cleaned yfSym).2 hinv
theorem fetch_detailed_canon (env : Env) (now : ℚ) (st : St) (s : String)
    (hinv : CacheCanon st) :
    CacheCanon (fetch_stock_data_detailed env now st s).2.1 := by
  simp only [fetch_stock_data_detailed]
  rcases h : get_cached_data st now (clean_symbol s) with _ | c
  · exact fetch_detailed_rest_canon env now st (clean_symbol s) (normalize_symbol s) hinv
  · by_cases hp : c.price.isSome
    · simp only [hp, if_true]
      exact hinv
    · simp only [hp, if_false]
      exact fetch_detailed_rest_canon env now st (clean_symbol s) (normalize_symbol s) hinv
theorem alookup_some_key {α : Type} (k : String) (l : List (String × α)) (v : α) :
    alookup k l = some v → ∃ q ∈ l, q.1 = k := by
  induction l with
  | nil => intro h; cases h
  | cons q rest ih =>
    obtain ⟨qk, qv⟩ := q
    intro h
    by_cases hk : qk = k
    · exact ⟨(qk, qv), List.mem_cons_self _ _, hk⟩
    · simp only [alookup, if_neg hk] at h
      rcases ih h with ⟨q', hq', he⟩
      exact ⟨q', List.mem_cons_of_mem _ hq', he⟩
theorem ranking_entries_key (results : List (String × QuoteRecord)) (syms : List String)
    (e : RankingEntry) :
    e ∈ ranking_entries results syms → ∃ q ∈ results, e.symbol = q.1 := by
  intro h
  rcases List.mem_filterMap.mp h with ⟨symbol, _, heq⟩
  rcases ha : alookup symbol results with _ | m
  · rw [ha] at heq
    cases heq
  · rw [ha] at heq
    simp only [Option.some.injEq] at heq
    obtain ⟨q, hq, hk⟩ := alookup_some_key symbol results m ha
    refine ⟨q, hq, ?_⟩
    rw [← heq, hk]
theorem mover_entry_symbol (q : RawDailyQuote) (e : RankingEntry) :
    mover_entry q = some e → e.symbol = pyStrip (raw_code_str q) ∧ e.symbol ≠ "" := by
  intro h
  simp only [mover_entry] at h
  split at h
  · cases h
  · rename_i hne
    simp only [Option.some.injEq] at h
    subst h
    exact ⟨rfl, hne⟩
/-- Claim C7 (amended): every key of the quote cache and of the result
mapping of `fetch_stock_data`, and the symbol of every popular-mode
ranking entry, is the image of a requested symbol under the symbol
normalizer `_clean_symbol` (trim, uppercase, remove `.T`), never the raw
string; full-universe ranking entries instead carry the provider-supplied
code only whitespace-trimmed (possibly lower-case or suffixed), and
non-empty. -/
theorem spec_c7_amended :
    (∀ (env : Env) (now : ℚ) (st : St) (symbols : List String) (p : String × QuoteRecord),
      p ∈ (fetch_stock_data env now st symbols).1 → ∃ u ∈ symbols, p.1 = clean_symbol u) ∧
    (∀ (env : Env) (now : ℚ) (st : St) (symbols : List String),
      CacheCanon st → CacheCanon (fetch_stock_data env now st symbols).2.1) ∧
    (∀ (env : Env) (now : ℚ) (st : St) (s : String),
      CacheCanon st → CacheCanon (fetch_stock_data_detailed env now st s).2.1) ∧
    (∀ (env : Env) (now : ℚ) (st : St) (limit : ℕ) (syms : List String)
        (g l : List RankingEntry),
      (get_stock_rankings env now st limit "popular" syms).1 = RankingsResult.ok g l →
      ∀ e ∈ g ++ l, ∃ u ∈ syms, e.symbol = clean_symbol u) ∧
    (∀ (env : Env) (now : ℚ) (st : St) (limit : ℕ) (syms : List String)
        (g l : List RankingEntry),
      st.moversCache = none →
      (get_stock_rankings env now st limit "all" syms).1 = RankingsResult.ok g l →
      ∀ e ∈ g ++ l, ∃ q ∈ env.jqDailyAll,
        e.symbol = pyStrip (raw_code_str q) ∧ e.symbol ≠ "") := by
  refine ⟨?_, ?_, ?_, ?_, ?_⟩
  · intro env now st symbols p h
    rcases fetch_fold_key env now symbols [] st [] p
        (by simpa [fetch_stock_data] using h) with ⟨q, hq, _⟩ | h2
    · exact absurd hq (List.not_mem_nil q)
    · exact h2
  · intro env now st symbols hinv
    have := fetch_fold_canon env now symbols [] st [] hinv
    simpa [fetch_stock_data] using this
  · exact fun env now st s hinv => fetch_detailed_canon env now st s hinv
  · intro env now st limit syms g l h e he
    simp only [get_stock_rankings] at h
    rw [if_neg (by decide : ¬ ("popular" : String) = "all")] at h
    split at h
    · simp at h
    · split at h
      · simp at h
      · simp only [RankingsResult.ok.injEq] at h
        obtain ⟨hg, hl⟩ := h
        subst hg; subst hl
        have hment : e ∈ ranking_entries (fetch_stock_data env now st syms).1 syms := by
          rcases List.mem_append.mp he with hm | hm
          · exact (mem_sortByLe _ _ _).mp (List.mem_of_mem_take hm)
          · exact (mem_sortByLe _ _ _).mp (List.mem_of_mem_take hm)
        obtain ⟨q, hq, hes⟩ := ranking_entries_key _ _ _ hment
        rcases fetch_fold_key env now syms [] st [] q
            (by simpa [fetch_stock_data] using hq) with ⟨q2, hq2, _⟩ | ⟨u, hu, he2⟩
        · exact absurd hq2 (List.not_mem_nil q2)
        · exact ⟨u, hu, hes.trans he2⟩
  · intro env now st limit syms g l hmc h e he
    simp only [get_stock_rankings] at h
    rw [if_pos trivial] at h
    unfold get_market_movers_all at h
    rw [hmc] at h
    simp only [movers_compute, RankingsResult.ok.injEq] at h
    obtain ⟨hg, hl⟩ := h
    subst hg; subst hl
    have hment : e ∈ env.jqDailyAll.filterMap mover_entry := by
      rcases List.mem_append.mp he with hm | hm
      · exact (mem_sortByLe _ _ _).mp (List.mem_of_mem_take hm)
      · exact (mem_sortByLe _ _ _).mp (List.mem_of_mem_take hm)
    rcases List.mem_filterMap.mp hment with ⟨q, hq, heq⟩
    exact ⟨q, hq, mover_entry_symbol q e heq⟩
unseal Rat.mul Rat.sub Rat.add Rat.inv in
/-- Witness for the amended C7 at concrete inputs: a result-mapping key,
the cache invariant from an empty cache through both entry points, the
popular-mode entries of the five-symbol fixture, and the movers entries
of the trimmed-code fixture. -/
theorem spec_c7_amended_witness :
    (∃ u ∈ ["ALFA"], (("ALFA", recA) : String × QuoteRecord).1 = clean_symbol u) ∧
    CacheCanon (fetch_stock_data env5 0 {} ["ALFA"]).2.1 ∧
    CacheCanon (fetch_stock_data_detailed envFail 0 {} "7203").2.1 ∧
    (∀ e ∈ [entD, entA, entC] ++ [entE, entB, entC],
      ∃ u ∈ syms5, e.symbol = clean_symbol u) ∧
    (∀ e ∈ [entC7] ++ [entC7], ∃ q ∈ envC7.jqDailyAll,
      e.symbol = pyStrip (raw_code_str q) ∧ e.symbol ≠ "") :=
  ⟨spec_c7_amended.1 env5 0 {} ["ALFA"] ("ALFA", recA) (by decide),
   spec_c7_amended.2.1 env5 0 {} ["ALFA"] (fun q hq => absurd hq (List.not_mem_nil q)),
   spec_c7_amended.2.2.1 envFail 0 {} "7203" (fun q hq => absurd hq (List.not_mem_nil q)),
   spec_c7_amended.2.2.2.1 env5 0 {} 3 syms5 [entD, entA, entC] [entE, entB, entC] (by decide),
   spec_c7_amended.2.2.2.2 envC7 0 {} 20 DEFAULT_POPULAR_SYMBOLS [entC7] [entC7] rfl (by decide)⟩
/-! ### C4: cache-hit idempotence -/
theorem cacheFind_cacheUpsert (k : String) (r : QuoteRecord) (e : ℚ)
    (l : List (String × QuoteRecord × ℚ)) :
    cacheFind k (cacheUpsert k r e l) = some (r, e) := by
  induction l with
  | nil => simp [cacheUpsert, cacheFind]
  | cons q rest ih =>
    obtain ⟨qk, qv⟩ := q
    by_cases h : qk = k
    · simp [cacheUpsert, cacheFind, h]
    · simp [cacheUpsert, cacheFind, h, ih]
theorem get_cached_data_some (st : St) (now : ℚ) (sym : String) (r : QuoteRecord) :
    get_cached_data st now sym = some r →
    ∃ e, cacheFind (clean_symbol sym) st.stockCache = some (r, e) ∧ now < e := by
  intro h
  simp only [get_cached_data] at h
  rcases hf : cacheFind (clean_symbol sym) st.stockCache with _ | pe
  · rw [hf] at h
    cases h
  · obtain ⟨rr, e⟩ := pe
    rw [hf] at h
    by_cases hlt : now < e
    · simp only [if_pos hlt, Option.some.injEq] at h
      subst h
      exact ⟨e, rfl, hlt⟩
    · simp [hlt] at h
theorem get_cached_data_of_find (st : St) (now : ℚ) (sym : String) (r : QuoteRecord) (e : ℚ)
    (hfind : cacheFind (clean_symbol sym) st.stockCache = some (r, e)) (hlt : now < e) :
    get_cached_data st now sym = some r := by
  simp [get_cached_data, hfind, hlt]
theorem fetch_detailed_hit (env : Env) (now : ℚ) (st : St) (s : String) (r : QuoteRecord)
    (hc : get_cached_data st now (clean_symbol s) = some r) (hp : r.price.isSome = true) :
    fetch_stock_data_detailed env now st s = (some r, st, [Ev.cacheHit (clean_symbol s)]) := by
  simp only [fetch_stock_data_detailed]
  rw [hc]
  simp [hp]
theorem fetch_hit (env : Env) (now : ℚ) (st : St) (s : String) (r : QuoteRecord)
    (hc : get_cached_data st now (clean_symbol s) = some r) :
    fetch_stock_data env now st [s] =
      ([(clean_symbol s, r)], st, [Ev.cacheHit (clean_symbol s)]) := by
  simp only [fetch_stock_data, List.foldl_cons, List.foldl_nil, fetch_one]
  rw [hc]
  rfl
theorem fetch_detailed_jq_success (env : Env) (now : ℚ) (st : St) (cleaned : String)
    (tr1 : List Ev) (r : QuoteRecord) (st1 : St) (tr : List Ev) :
    fetch_detailed_jq env now st cleaned tr1 = (some r, st1, tr) →
    ∃ e, cacheFind (clean_symbol cleaned) st1.stockCache = some (r, e) ∧ now < e ∧
      r.price.isSome = true := by
  intro h
  simp only [fetch_detailed_jq] at h
  rcases hj : (try_jquants_detailed env cleaned).1 with _ | j
  · rw [hj] at h
    simp [get_mock_data] at h
  · rw [hj] at h
    by_cases hp : j.price.isSome
    · simp only [hp, if_true, Prod.mk.injEq, Option.some.injEq] at h
      obtain ⟨h1, h2, _⟩ := h
      subst h1
      subst h2
      refine ⟨now + CACHE_DURATION, cacheFind_cacheUpsert .., ?_, hp⟩
      simp [CACHE_DURATION]
    · simp only [hp, if_false] at h
      simp [get_mock_data] at h
theorem fetch_detailed_rest_success (env : Env) (now : ℚ) (st : St) (cleaned yfSym : String)
    (r : QuoteRecord) (st1 : St) (tr : List Ev) :
    fetch_detailed_rest env now st cleaned yfSym = (some r, st1, tr) →
    ∃ e, cacheFind (clean_symbol cleaned) st1.stockCache = some (r, e) ∧ now < e ∧
      r.price.isSome = true := by
  intro h
  simp only [fetch_detailed_rest] at h
  rcases hy : (try_yahoo_finance_detailed env cleaned yfSym).1 with _ | y
  · rw [hy] at h
    exact fetch_detailed_jq_success _ _ _ _ _ _ _ _ h
  · rw [hy] at h
    by_cases hp : y.price.isSome
    · simp only [hp, if_true, Prod.mk.injEq, Option.some.injEq] at h
      obtain ⟨h1, h2, _⟩ := h
      subst h1
      subst h2
      refine ⟨now + CACHE_DURATION, cacheFind_cacheUpsert .., ?_, hp⟩
      simp [CACHE_DURATION]
    · simp only [hp, if_false] at h
      exact fetch_detailed_jq_success _ _ _ _ _ _ _ _ h
theorem fetch_detailed_success (env : Env) (now : ℚ) (st : St) (s : String)
    (r : QuoteRecord) (st1 : St) (tr1 : List Ev) :
    fetch_stock_data_detailed env now st s = (some r, st1, tr1) →
    ∃ e, cacheFind (clean_symbol (clean_symbol s)) st1.stockCache = some (r, e) ∧
      now < e ∧ r.price.isSome = true := by
  intro h
  simp only [fetch_stock_data_detailed] at h
  rcases hc : get_cached_data st now (clean_symbol s) with _ | c
  · rw [hc] at h
    exact fetch_detailed_rest_success _ _ _ _ _ _ _ _ h
  · rw [hc] at h
    by_cases hp : c.price.isSome
    · simp only [hp, if_true, Prod.mk.injEq, Option.some.injEq] at h
      obtain ⟨h1, h2, _⟩ := h
      subst h1
      subst h2
      obtain ⟨e, hfind, hlt⟩ := get_cached_data_some st now (clean_symbol s) c hc
      exact ⟨e, hfind, hlt, hp⟩
    · simp only [hp, if_false] at h
      exact fetch_detailed_rest_success _ _ _ _ _ _ _ _ h
theorem fetch_yfinance_data_price_fst (env : Env) (s : String) (y : QuoteRecord) :
    (fetch_yfinance_data env s).1 = some y → y.price.isSome = true := by
  intro h
  exact fetch_yfinance_data_price env s y (fetch_yfinance_data env s).2 (by rw [← h])
theorem fetch_success (env : Env) (now : ℚ) (st : St) (s : String)
    (r : QuoteRecord) (st1 : St) (tr1 : List Ev) :
    fetch_stock_data env now st [s] = ([(clean_symbol s, r)], st1, tr1) →
    ∃ e, cacheFind (clean_symbol (clean_symbol s)) st1.stockCache = some (r, e) ∧ now < e := by
  intro h
  simp only [fetch_stock_data, List.foldl_cons, List.foldl_nil, fetch_one] at h
  rcases hc : get_cached_data st now (clean_symbol s) with _ | c
  · rw [hc] at h
    rcases hy : (fetch_yfinance_data env (clean_symbol s)).1 with _ | y
    · rw [hy] at h
      simp only [fetch_one_jq] at h
      rcases hj : env.jqDaily (clean_symbol s) with _ | j
      · rw [hj] at h
        simp [fetch_one_mock, get_mock_data] at h
      · rw [hj] at h
        by_cases hjp : j.price.isSome
        · simp only [hjp, if_true, Prod.mk.injEq] at h
          obtain ⟨h1, h2, _⟩ := h
          simp only [dinsert, List.cons.injEq, Prod.mk.injEq, and_true] at h1
          obtain ⟨_, h1r⟩ := h1
          subst h1r
          subst h2
          exact ⟨now + CACHE_DURATION, cacheFind_cacheUpsert .., by simp [CACHE_DURATION]⟩
        · simp only [hjp, if_false] at h
          simp [fetch_one_mock, get_mock_data] at h
    · rw [hy] at h
      by_cases hyp : y.price.isSome
      · simp only [hyp, if_true, Prod.mk.injEq] at h
        obtain ⟨h1, h2, _⟩ := h
        simp only [dinsert, List.cons.injEq, Prod.mk.injEq, and_true] at h1
        obtain ⟨_, h1r⟩ := h1
        subst h1r
        subst h2
        exact ⟨now + CACHE_DURATION, cacheFind_cacheUpsert .., by simp [CACHE_DURATION]⟩
      · exact absurd (fetch_yfinance_data_price_fst env (clean_symbol s) y hy) hyp
  · rw [hc] at h
    simp only [Prod.mk.injEq] at h
    obtain ⟨h1, h2, _⟩ := h
    simp only [dinsert, List.cons.injEq, Prod.mk.injEq, and_true] at h1
    obtain ⟨_, h1r⟩ := h1
    subst h1r
    subst h2
    obtain ⟨e, hfind, hlt⟩ := get_cached_data_some st now (clean_symbol s) c hc
    exact ⟨e, hfind, hlt⟩
/-- Claim C4: after a successful fetch of symbol `s` (through either
entry point), the returned record sits in the quote cache under the
canonical key with some expiry `e`, carries a non-null price, and any
second call — `fetch_stock_data_detailed s` or `fetch_stock_data [s]` —
issued while the clock is before `e` (within the 5-minute TTL window set
by `_set_cache`) returns the identical cached record with the state
unchanged and a trace consisting only of the cache-hit event, which is
not a provider invocation. -/
theorem spec_c4 :
    (∀ (env : Env) (now : ℚ) (st : St) (s : String) (r : QuoteRecord) (st1 : St)
        (tr1 : List Ev),
      fetch_stock_data_detailed env now st s = (some r, st1, tr1) →
      ∃ e, cacheFind (clean_symbol (clean_symbol s)) st1.stockCache = some (r, e) ∧
        r.price.isSome = true ∧
        ∀ (env2 : Env) (now2 : ℚ), now2 < e →
          fetch_stock_data_detailed env2 now2 st1 s =
            (some r, st1, [Ev.cacheHit (clean_symbol s)]) ∧
          fetch_stock_data env2 now2 st1 [s] =
            ([(clean_symbol s, r)], st1, [Ev.cacheHit (clean_symbol s)])) ∧
    (∀ (env : Env) (now : ℚ) (st : St) (s : String) (r : QuoteRecord) (st1 : St)
        (tr1 : List Ev),
      fetch_stock_data env now st [s] = ([(clean_symbol s, r)], st1, tr1) →
      r.price.isSome = true →
      ∃ e, cacheFind (clean_symbol (clean_symbol s)) st1.stockCache = some (r, e) ∧
        ∀ (env2 : Env) (now2 : ℚ), now2 < e →
          fetch_stock_data_detailed env2 now2 st1 s =
            (some r, st1, [Ev.cacheHit (clean_symbol s)]) ∧
          fetch_stock_data env2 now2 st1 [s] =
            ([(clean_symbol s, r)], st1, [Ev.cacheHit (clean_symbol s)])) ∧
    (∀ sym, (Ev.cacheHit sym).isProviderCall = false) := by
  refine ⟨?_, ?_, fun _ => rfl⟩
  · intro env now st s r st1 tr1 h
    obtain ⟨e, hfind, _, hp⟩ := fetch_detailed_success env now st s r st1 tr1 h
    refine ⟨e, hfind, hp, ?_⟩
    intro env2 now2 hlt2
    have hc2 : get_cached_data st1 now2 (clean_symbol s) = some r :=
      get_cached_data_of_find st1 now2 (clean_symbol s) r e hfind hlt2
    exact ⟨fetch_detailed_hit env2 now2 st1 s r hc2 hp, fetch_hit env2 now2 st1 s r hc2⟩
  · intro env now st s r st1 tr1 h hp
    obtain ⟨e, hfind, _⟩ := fetch_success env now st s r st1 tr1 h
    refine ⟨e, hfind, ?_⟩
    intro env2 now2 hlt2
    have hc2 : get_cached_data st1 now2 (clean_symbol s) = some r :=
      get_cached_data_of_find st1 now2 (clean_symbol s) r e hfind hlt2
    exact ⟨fetch_detailed_hit env2 now2 st1 s r hc2 hp, fetch_hit env2 now2 st1 s r hc2⟩
unseal Rat.mul Rat.sub Rat.add Rat.inv in
/-- Witness for C4: after a concrete successful detailed fetch of "ALFA",
a later call (here at clock 250, inside the 5-minute window) through each
entry point returns the identical cached record with only a cache-hit
event, even with every provider unreachable. -/
theorem spec_c4_witness :
    fetch_stock_data_detailed envFail 250 (set_cache {} 0 (clean_symbol "ALFA") recA) "ALFA" =
      (some recA, set_cache {} 0 (clean_symbol "ALFA") recA,
        [Ev.cacheHit (clean_symbol "ALFA")]) ∧
    fetch_stock_data envFail 250 (set_cache {} 0 (clean_symbol "ALFA") recA) ["ALFA"] =
      ([(clean_symbol "ALFA", recA)], set_cache {} 0 (clean_symbol "ALFA") recA,
        [Ev.cacheHit (clean_symbol "ALFA")]) := by
  obtain ⟨e, hfind, hp, h2⟩ := spec_c4.1 env5 0 {} "ALFA" recA
    (set_cache {} 0 (clean_symbol "ALFA") recA)
    [Ev.fastInfoQ "ALFA", Ev.infoQ "ALFA", Ev.financialsQ "ALFA", Ev.dividendsQ "ALFA",
      Ev.historyQ "ALFA"] (by decide)
  have hfind300 : cacheFind (clean_symbol (clean_symbol "ALFA"))
      ((set_cache ({} : St) 0 (clean_symbol "ALFA") recA).stockCache) = some (recA, 300) := by
    decide
  have he : e = 300 := by
    have h3 := hfind300.symm.trans hfind
    simp only [Option.some.injEq, Prod.mk.injEq] at h3
    exact h3.2.symm
  exact h2 envFail 250 (by rw [he]; norm_num)
